import Mathlib

/-!
# Verification of semgrep's dependency-resolution engine

A shallow embedding of the supply-chain dependency-resolution core found under
`semgrep/` and `semdep/` in this repository:

* `semgrep/subproject.py` — the dependency-source / subproject data model,
  the resolved-dependency graph (`ResolvedDependencies`) and
  `find_closest_subproject`;
* `semgrep/resolve_dependency_source.py` — the resolution orchestrator;
* `semgrep/resolve_subprojects.py` — discovery and aggregation;
* `semdep/matchers/base.py`, `semdep/subproject_matchers.py` — the subproject
  matcher framework;
* `semgrep/ignores.py` — the path-ignore filter.

Modelling conventions:
* a filesystem path (`pathlib.Path`) is a list of path segments, root to leaf;
* Python `set`/`frozenset` values are lists; only membership and difference are
  used by the embedded code, so duplicates and ordering are irrelevant there;
* the per-ecosystem lockfile parsers and the dynamic-resolution RPC transport
  are external collaborators (they live outside the embedded modules), so they
  are supplied as an `Env` of opaque functions;
* filesystem predicates used by the ignore filter (`exists`, `samefile`,
  `absolute`) and `fnmatch.fnmatch` (Python stdlib) are likewise oracles.
-/

/-- A filesystem path, as its list of segments from root to leaf.
`pathlib.Path` operations `name`, `parent` and `/` are `pathName`,
`pathParent` and `pathChild` below. -/
abbrev FPath := List String

/-- `path.name`: the final path segment (empty for the root path). -/
def pathName (p : FPath) : String := p.getLastD ""

/-- `path.parent`: the path with its final segment removed. -/
def pathParent (p : FPath) : FPath := p.dropLast

/-- `dir / name`: appending one segment to a directory path. -/
def pathChild (dir : FPath) (n : String) : FPath := dir ++ [n]

/-- Structural worker for `pathAncestors`: the first argument is the path's
segment count, so the recursion is structural (and hence kernel-reducible). -/
def pathAncestorsGo : Nat → FPath → List FPath
  | 0, p => [p]
  | _ + 1, [] => [[]]
  | n + 1, p@(_ :: _) => p :: pathAncestorsGo n (pathParent p)

/-- `[path, *path.parents]`: the path itself followed by all of its ancestor
directories up to the root, longest first (`find_closest_subproject` walks
this list). -/
def pathAncestors (p : FPath) : List FPath := pathAncestorsGo p.length p

/-- `out.LockfileKind`: the recognized lockfile formats
(`semgrep_output_v1`). -/
inductive LockfileKind
  | pipfileLock
  | pipRequirementsTxt
  | poetryLock
  | uvLock
  | npmPackageLockJson
  | yarnLock
  | pnpmLock
  | gemfileLock
  | composerLock
  | goMod
  | cargoLock
  | mavenDepTree
  | gradleLockfile
  | nugetPackagesLockJson
  | pubspecLock
  | swiftPackageResolved
  | mixLock
  | conanLock
deriving DecidableEq

/-- `out.ManifestKind`: the recognized manifest formats (only the kinds the
embedded modules mention). -/
inductive ManifestKind
  | pomXml
  | buildGradle
  | packageJson
  | gemfileManifest
  | goModManifest
  | cargoToml
  | composerJson
  | nugetManifestJson
  | pubspecYaml
  | packageSwift
  | mixExs
  | pipfileManifest
  | pyprojectToml
  | requirementsIn
deriving DecidableEq

/-- `out.Ecosystem`: package-manager universes. -/
inductive Ecosystem
  | pypi
  | npm
  | gem
  | composer
  | gomod
  | cargo
  | maven
  | nuget
  | pub
  | swiftPM
  | mix
deriving DecidableEq

/-- `out.Transitivity`. -/
inductive Transitivity
  | direct
  | transitive
  | unknownTransitivity
deriving DecidableEq

/-- `out.DependencyChild`: a `(package, version)` key referencing other
`FoundDependency` records within the same resolution result. -/
structure DependencyChild where
  package : String
  version : String
deriving DecidableEq

/-- `out.FoundDependency` (the fields the embedded modules read). -/
structure FoundDependency where
  package : String
  version : String
  transitivity : Transitivity
  lockfile_path : Option FPath
  children : Option (List DependencyChild)
deriving DecidableEq

/-- `out.Manifest`: manifest kind tag plus file path. -/
structure Manifest where
  kind : ManifestKind
  path : FPath
deriving DecidableEq

/-- `out.Lockfile`: lockfile kind tag plus file path. -/
structure Lockfile where
  kind : LockfileKind
  path : FPath
deriving DecidableEq

/-- `out.DependencyParserError`: opaque parse-error payload. -/
abbrev DependencyParserError := String

/-- The payload type of a dynamic-resolution error (`type_` field). -/
abbrev ResolutionErrorKind := String

/-- `semgrep.error.DependencyResolutionError`: a dynamic-resolution error
wrapped with the originating dependency-source file for attribution. -/
structure DependencyResolutionError where
  type_ : ResolutionErrorKind
  dependency_source_file : FPath
deriving DecidableEq

/-- `Union[DependencyParserError, DependencyResolutionError]` as it appears in
error lists throughout the orchestrator. -/
inductive SemErr
  | parseErr (e : DependencyParserError)
  | resolutionErr (e : DependencyResolutionError)
deriving DecidableEq

/-- `ResolutionMethod` (semgrep/subproject.py). -/
inductive ResolutionMethod
  | lockfileParsing
  | dynamic
deriving DecidableEq

/-- The lockfile-backed dependency sources
(`Union[LockfileOnlyDependencySource, ManifestLockfileDependencySource]`),
which are exactly the sources a `MultiLockfileDependencySource` may nest. -/
inductive LockfileDepSource
  | lockfileOnly (lockfile : Lockfile)
  | manifestLockfile (manifest : Manifest) (lockfile : Lockfile)
deriving DecidableEq

/-- The `lockfile` field shared by both lockfile-backed source variants. -/
def LockfileDepSource.lockfile : LockfileDepSource → Lockfile
  | .lockfileOnly l => l
  | .manifestLockfile _ l => l

/-- The optional paired manifest of a lockfile-backed source. -/
def LockfileDepSource.manifest? : LockfileDepSource → Option Manifest
  | .lockfileOnly _ => none
  | .manifestLockfile m _ => some m

/-- `DependencySource` (semgrep/subproject.py): the tagged union of all
dependency-source variants. -/
inductive DependencySource
  | manifestOnly (manifest : Manifest)
  | lockfileOnly (lockfile : Lockfile)
  | manifestLockfile (manifest : Manifest) (lockfile : Lockfile)
  | multiLockfile (sources : List LockfileDepSource)
deriving DecidableEq

/-- Injecting a lockfile-backed source back into the full union. -/
def LockfileDepSource.toDependencySource : LockfileDepSource → DependencySource
  | .lockfileOnly l => .lockfileOnly l
  | .manifestLockfile m l => .manifestLockfile m l

/-- `out.DependencySource`: the wire form produced by `to_semgrep_output`
and sent to the dynamic-resolution RPC. -/
inductive OutDependencySource
  | manifestOnly (manifest : Manifest)
  | lockfileOnly (lockfile : Lockfile)
  | manifestLockfile (manifest : Manifest) (lockfile : Lockfile)
deriving DecidableEq

/-- `Union[ManifestOnlyDependencySource, ManifestLockfileDependencySource]`:
the argument type of `_resolve_dependencies_dynamically` (both variants carry
a manifest). -/
inductive DynDepSource
  | manifestOnly (manifest : Manifest)
  | manifestLockfile (manifest : Manifest) (lockfile : Lockfile)
deriving DecidableEq

/-- The `manifest` field of a dynamically resolvable source. -/
def DynDepSource.manifest : DynDepSource → Manifest
  | .manifestOnly m => m
  | .manifestLockfile m _ => m

/-- `to_semgrep_output` for a dynamically resolvable source. -/
def DynDepSource.to_semgrep_output : DynDepSource → OutDependencySource
  | .manifestOnly m => .manifestOnly m
  | .manifestLockfile m l => .manifestLockfile m l

/-- `out.ResolutionResult`: success carries resolved dependencies plus partial
errors, failure carries only errors. -/
inductive ResolutionResult
  | resolutionOk (deps : List FoundDependency) (errors : List ResolutionErrorKind)
  | resolutionError (errors : List ResolutionErrorKind)
deriving DecidableEq

/-- A per-ecosystem lockfile parser: `(lockfile path, optional manifest path)
to (found dependencies, parse errors)`. The concrete parsers live in
`semdep/parsers/` and are external collaborators. -/
abbrev SemgrepParser :=
  FPath → Option FPath → List FoundDependency × List DependencyParserError

/-- The external collaborators of the resolution orchestrator: one opaque
parser per lockfile kind (the entries of `PARSERS_BY_LOCKFILE_KIND` that are
not `None`), and the dynamic-resolution RPC transport
(`semgrep.rpc_call.resolve_dependencies`), whose `none` answer models a
transport-level failure (no response at all). -/
structure Env where
  parsers : LockfileKind → SemgrepParser
  rpc : List OutDependencySource →
    Option (List (OutDependencySource × ResolutionResult))

/-- `PARSERS_BY_LOCKFILE_KIND`: maps lockfile kinds to their parsers. A `none`
value indicates the lockfile format is recognized but has no parser support
(`UvLock` and `ConanLock` in the source dict). -/
def PARSERS_BY_LOCKFILE_KIND (env : Env) : LockfileKind → Option SemgrepParser
  | .pipfileLock => some (env.parsers .pipfileLock)
  | .pipRequirementsTxt => some (env.parsers .pipRequirementsTxt)
  | .poetryLock => some (env.parsers .poetryLock)
  | .uvLock => none
  | .npmPackageLockJson => some (env.parsers .npmPackageLockJson)
  | .yarnLock => some (env.parsers .yarnLock)
  | .pnpmLock => some (env.parsers .pnpmLock)
  | .gemfileLock => some (env.parsers .gemfileLock)
  | .composerLock => some (env.parsers .composerLock)
  | .goMod => some (env.parsers .goMod)
  | .cargoLock => some (env.parsers .cargoLock)
  | .mavenDepTree => some (env.parsers .mavenDepTree)
  | .gradleLockfile => some (env.parsers .gradleLockfile)
  | .nugetPackagesLockJson => some (env.parsers .nugetPackagesLockJson)
  | .pubspecLock => some (env.parsers .pubspecLock)
  | .swiftPackageResolved => some (env.parsers .swiftPackageResolved)
  | .mixLock => some (env.parsers .mixLock)
  | .conanLock => none

/-- `ECOSYSTEM_BY_LOCKFILE_KIND`: maps lockfile kinds to package ecosystems;
`none` (only `ConanLock`) means the ecosystem is not yet supported. -/
def ECOSYSTEM_BY_LOCKFILE_KIND : LockfileKind → Option Ecosystem
  | .pipfileLock => some .pypi
  | .pipRequirementsTxt => some .pypi
  | .poetryLock => some .pypi
  | .uvLock => some .pypi
  | .npmPackageLockJson => some .npm
  | .yarnLock => some .npm
  | .pnpmLock => some .npm
  | .gemfileLock => some .gem
  | .composerLock => some .composer
  | .goMod => some .gomod
  | .cargoLock => some .cargo
  | .mavenDepTree => some .maven
  | .gradleLockfile => some .maven
  | .nugetPackagesLockJson => some .nuget
  | .pubspecLock => some .pub
  | .swiftPackageResolved => some .swiftPM
  | .mixLock => some .mix
  | .conanLock => none

/-- `DEPENDENCY_GRAPH_SUPPORTED_MANIFEST_KINDS`: the allow-list of manifest
kinds for which dependency-graph (dynamic) generation is attempted. -/
def DEPENDENCY_GRAPH_SUPPORTED_MANIFEST_KINDS : List ManifestKind :=
  [.pomXml, .buildGradle]

/-- `DependencyResolutionResult`: optional `(ecosystem, method, dependencies)`
triple, the error list, and the dependency-target path list. -/
abbrev DependencyResolutionResult :=
  Option (Ecosystem × ResolutionMethod × List FoundDependency)
    × List SemErr × List FPath

/-- `_resolve_dependencies_dynamically`: one RPC round-trip for one dependency
source. A missing response (`none`) yields no result, no errors and no
targets. On a response, only the first correlated result is used; a success
result is tagged with the hardcoded Maven ecosystem, and errors are wrapped
with the originating manifest path.

(When the transport answers with an empty list, the Python code would raise
`IndexError` on `response[0]`; the RPC contract echoes the single request back
so that case is unreachable, and this model returns no result there.) -/
def _resolve_dependencies_dynamically (env : Env) (dependency_source : DynDepSource) :
    Option (Ecosystem × List FoundDependency) × List SemErr × List FPath :=
  match env.rpc [dependency_source.to_semgrep_output] with
  | none => (none, [], [])
  | some [] => (none, [], [])
  | some ((_, result) :: _) =>
    match result with
    | .resolutionOk resolved_deps errors =>
      let ecosystem := Ecosystem.maven
      let wrapped_errors := errors.map (fun e_type =>
        SemErr.resolutionErr ⟨e_type, dependency_source.manifest.path⟩)
      (some (ecosystem, resolved_deps), wrapped_errors,
        [dependency_source.manifest.path])
    | .resolutionError errors =>
      let wrapped_errors := errors.map (fun e_type =>
        SemErr.resolutionErr ⟨e_type, dependency_source.manifest.path⟩)
      (none, wrapped_errors, [])

/-- `_handle_manifest_only_source`: manifest-only sources are resolvable only
dynamically. -/
def _handle_manifest_only_source (env : Env) (manifest : Manifest) :
    DependencyResolutionResult :=
  let r := _resolve_dependencies_dynamically env (.manifestOnly manifest)
  match r.1 with
  | none => (none, r.2.1, r.2.2)
  | some (new_ecosystem, new_deps) =>
    (some (new_ecosystem, .dynamic, new_deps), r.2.1, r.2.2)

/-- `_handle_lockfile_source`: if dynamic resolution is enabled and
prioritized and the source has a paired manifest whose kind is in the
dependency-graph allow-list, attempt dynamic resolution first and return a
successful dynamic result immediately; otherwise (or on dynamic failure,
whose errors and targets the code drops) fall back to static parsing, and
yield no result when the lockfile kind has no registered parser or
ecosystem. -/
def _handle_lockfile_source (env : Env) (dep_source : LockfileDepSource)
    (enable_dynamic_resolution prioritize_dependency_graph_generation : Bool) :
    DependencyResolutionResult :=
  let lockfile_path := dep_source.lockfile.path
  let parser := PARSERS_BY_LOCKFILE_KIND env dep_source.lockfile.kind
  let ecosystem := ECOSYSTEM_BY_LOCKFILE_KIND dep_source.lockfile.kind
  -- static parsing (used both standalone and as fallback for failed dynamic
  -- resolution); `None` parser or ecosystem means the source yields no result
  let static : DependencyResolutionResult :=
    match parser, ecosystem with
    | some parser, some ecosystem =>
      let manifest_path := dep_source.manifest?.map Manifest.path
      let parsed := parser lockfile_path manifest_path
      (some (ecosystem, .lockfileParsing, parsed.1),
        parsed.2.map SemErr.parseErr, [lockfile_path])
    | _, _ => (none, [], [])
  match dep_source with
  | .manifestLockfile manifest lockfile =>
    if enable_dynamic_resolution && prioritize_dependency_graph_generation
        && decide (manifest.kind ∈ DEPENDENCY_GRAPH_SUPPORTED_MANIFEST_KINDS) then
      let r := _resolve_dependencies_dynamically env
        (.manifestLockfile manifest lockfile)
      match r.1 with
      | some (new_ecosystem, new_deps) =>
        (some (new_ecosystem, .dynamic, new_deps), r.2.1, r.2.2)
      | none => static
    else static
  | .lockfileOnly _ => static

/-- The running accumulator of `_handle_multi_lockfile_source`'s loop. -/
structure MultiAcc where
  all_resolved_deps : List FoundDependency
  all_parse_errors : List SemErr
  all_dep_targets : List FPath
  resolution_methods : List ResolutionMethod
  ecosystem : Option Ecosystem

/-- One iteration of the `_handle_multi_lockfile_source` loop body. Each
nested source is routed through `resolve_dependency_source` with that
function's default flags (dynamic resolution enabled, graph generation not
prioritized), which dispatches lockfile-backed sources to
`_handle_lockfile_source`. -/
def multiLockfileStep (env : Env) (acc : MultiAcc) (lockfile_source : LockfileDepSource) :
    MultiAcc :=
  let r := _handle_lockfile_source env lockfile_source true false
  let acc :=
    match r.1 with
    | some (eco, resolution_method, new_deps) =>
      { acc with
        ecosystem := some eco
        resolution_methods :=
          if resolution_method ∈ acc.resolution_methods then
            acc.resolution_methods
          else acc.resolution_methods ++ [resolution_method]
        all_resolved_deps := acc.all_resolved_deps ++ new_deps }
    | none => acc
  { acc with
    all_parse_errors := acc.all_parse_errors ++ r.2.1
    all_dep_targets := acc.all_dep_targets ++ r.2.2 }

/-- `_handle_multi_lockfile_source`: resolve each nested source independently,
concatenate dependencies, errors and targets; mark the merge `Dynamic` iff any
nested source resolved dynamically; keep the ecosystem of the last nested
source that produced a result; yield no result when none did. -/
def _handle_multi_lockfile_source (env : Env) (sources : List LockfileDepSource) :
    DependencyResolutionResult :=
  let acc := sources.foldl (multiLockfileStep env) ⟨[], [], [], [], none⟩
  match acc.ecosystem with
  | none => (none, acc.all_parse_errors, acc.all_dep_targets)
  | some eco =>
    let resolution_method :=
      if ResolutionMethod.dynamic ∈ acc.resolution_methods then
        ResolutionMethod.dynamic
      else ResolutionMethod.lockfileParsing
    (some (eco, resolution_method, acc.all_resolved_deps),
      acc.all_parse_errors, acc.all_dep_targets)

/-- `resolve_dependency_source`: the orchestrator's dispatcher over the
dependency-source variants. Unsupported combinations (manifest-only with
dynamic resolution disabled) are a no-op with an empty result. -/
def resolve_dependency_source (env : Env) (dep_source : DependencySource)
    (enable_dynamic_resolution prioritize_dependency_graph_generation : Bool) :
    DependencyResolutionResult :=
  match dep_source with
  | .lockfileOnly l =>
    _handle_lockfile_source env (.lockfileOnly l)
      enable_dynamic_resolution prioritize_dependency_graph_generation
  | .manifestLockfile m l =>
    _handle_lockfile_source env (.manifestLockfile m l)
      enable_dynamic_resolution prioritize_dependency_graph_generation
  | .multiLockfile sources => _handle_multi_lockfile_source env sources
  | .manifestOnly m =>
    if enable_dynamic_resolution then _handle_manifest_only_source env m
    else (none, [], [])

/-- `Subproject` (semgrep/subproject.py): one resolvable unit of dependency
analysis, anchored at a root directory and backed by a dependency source. -/
structure Subproject where
  root_dir : FPath
  dependency_source : DependencySource
deriving DecidableEq

/-- `UnresolvedSubproject`: a subproject for which resolution was attempted
but did not succeed, plus the accumulated resolution errors. -/
structure UnresolvedSubproject extends Subproject where
  resolution_errors : List SemErr
deriving DecidableEq

/-- `UnresolvedSubproject.from_subproject`. -/
def UnresolvedSubproject.from_subproject (base : Subproject)
    (resolution_errors : List SemErr) : UnresolvedSubproject :=
  { root_dir := base.root_dir
    dependency_source := base.dependency_source
    resolution_errors := resolution_errors }

/-- `ResolvedDependencies`: the dependency graph's adjacency index, mapping
each `(package, version)` key to the list of `FoundDependency` records sharing
it. The Python `Dict` preserves insertion order; it is modelled as an
association list with unique keys. -/
structure ResolvedDependencies where
  entries : List (DependencyChild × List FoundDependency)
deriving DecidableEq

/-- The `(package, version)` key of a dependency record. -/
def keyOf (dep : FoundDependency) : DependencyChild :=
  ⟨dep.package, dep.version⟩

/-- One step of `ResolvedDependencies.from_found_dependencies`: append `dep`
to the record group of its key, creating the group if absent. -/
def insertFoundDependency (mapping : List (DependencyChild × List FoundDependency))
    (dep : FoundDependency) : List (DependencyChild × List FoundDependency) :=
  if mapping.any (fun e => decide (e.1 = keyOf dep)) then
    mapping.map (fun e => if e.1 = keyOf dep then (e.1, e.2 ++ [dep]) else e)
  else mapping ++ [(keyOf dep, [dep])]

/-- `ResolvedDependencies.from_found_dependencies`. -/
def ResolvedDependencies.from_found_dependencies (found_deps : List FoundDependency) :
    ResolvedDependencies :=
  ⟨found_deps.foldl insertFoundDependency []⟩

/-- `iter_found_dependencies`: all records, in insertion order across keys. -/
def ResolvedDependencies.iter_found_dependencies (g : ResolvedDependencies) :
    List FoundDependency :=
  (g.entries.map (fun e => e.2)).flatten

/-- `ResolvedSubproject`: a subproject plus its resolved dependencies. -/
structure ResolvedSubproject extends Subproject where
  ecosystem : Ecosystem
  resolution_errors : List SemErr
  resolution_method : ResolutionMethod
  found_dependencies : ResolvedDependencies
deriving DecidableEq

/-- `ResolvedSubproject.from_unresolved`. -/
def ResolvedSubproject.from_unresolved (unresolved : Subproject)
    (resolution_method : ResolutionMethod) (resolution_errors : List SemErr)
    (found_dependencies : List FoundDependency) (ecosystem : Ecosystem) :
    ResolvedSubproject :=
  { root_dir := unresolved.root_dir
    dependency_source := unresolved.dependency_source
    resolution_errors := resolution_errors
    ecosystem := ecosystem
    found_dependencies :=
      ResolvedDependencies.from_found_dependencies found_dependencies
    resolution_method := resolution_method }

/-- `find_closest_subproject`'s candidate ordering: by root-directory depth
(number of parts), descending. `sorted(..., reverse=True)` is stable, as is
insertion sort with this relation. -/
def rootLenDesc (a b : ResolvedSubproject) : Prop :=
  b.root_dir.length ≤ a.root_dir.length

instance : DecidableRel rootLenDesc := fun a b =>
  inferInstanceAs (Decidable (b.root_dir.length ≤ a.root_dir.length))

instance : IsTotal ResolvedSubproject rootLenDesc :=
  ⟨fun a b => Nat.le_total b.root_dir.length a.root_dir.length⟩

instance : IsTrans ResolvedSubproject rootLenDesc :=
  ⟨fun _ _ _ hab hbc => Nat.le_trans hbc hab⟩

/-- `find_closest_subproject` (semgrep/subproject.py): sort the candidates by
root-directory depth descending, then return the first candidate whose root
directory equals one of `[path, *path.parents]` and whose ecosystem matches.
The Python double loop returns on the first such candidate, which is the
`find?` below. -/
def find_closest_subproject (path : FPath) (ecosystem : Ecosystem)
    (candidates : List ResolvedSubproject) : Option ResolvedSubproject :=
  let sorted_candidates := List.insertionSort rootLenDesc candidates
  sorted_candidates.find? (fun candidate =>
    (pathAncestors path).any (fun parent =>
      decide (candidate.root_dir = parent)) && decide (candidate.ecosystem = ecosystem))

/-- The matcher capability interface (`SubprojectMatcher`,
semdep/matchers/base.py): recognize relevant file names, and build
subprojects from candidate files, returning the files consumed. -/
structure SubprojectMatcher where
  is_match : FPath → Bool
  make_subprojects : List FPath → List Subproject × List FPath

/-- The data of a `LockfileManifestMatcher` subclass (semdep/matchers/base.py):
the four abstract methods plus the kind tags. -/
structure LockfileManifestMatcherCls where
  manifest_kind : ManifestKind
  lockfile_kind : LockfileKind
  is_manifest_match : FPath → Bool
  is_lockfile_match : FPath → Bool
  lockfile_to_manifest : FPath → List FPath → Option FPath
  get_subproject_root : Option FPath → FPath → FPath

/-- The body of `LockfileManifestMatcher.make_subprojects`' per-lockfile loop:
pair the lockfile with a co-located manifest from the full candidate set when
one exists, and build one subproject either way; the root comes from
`_get_subproject_root` applied to `(matching manifest, lockfile)`. -/
def mkLockfileSubproject (M : LockfileManifestMatcherCls)
    (dep_source_files : List FPath) (lockfile_path : FPath) : Subproject :=
  match M.lockfile_to_manifest lockfile_path dep_source_files with
  | some matching_manifest_path =>
    { root_dir := M.get_subproject_root (some matching_manifest_path) lockfile_path
      dependency_source := .manifestLockfile
        ⟨M.manifest_kind, matching_manifest_path⟩
        ⟨M.lockfile_kind, lockfile_path⟩ }
  | none =>
    { root_dir := M.get_subproject_root none lockfile_path
      dependency_source := .lockfileOnly ⟨M.lockfile_kind, lockfile_path⟩ }

/-- `LockfileManifestMatcher.make_subprojects`: build one subproject per
matching lockfile (the loop over the lockfile set becomes a `map`); the
consumed files are the paired manifests together with the lockfiles used.
(The manifests collected by `_filter_manifest_lockfiles` are unused by the
Python method as well.) -/
def LockfileManifestMatcherCls.make_subprojects (M : LockfileManifestMatcherCls)
    (dep_source_files : List FPath) : List Subproject × List FPath :=
  let lockfiles := dep_source_files.filter M.is_lockfile_match
  let paired_manifests :=
    lockfiles.filterMap (fun l => M.lockfile_to_manifest l dep_source_files)
  (lockfiles.map (mkLockfileSubproject M dep_source_files),
    paired_manifests ++ lockfiles)

/-- `ExactLockfileManifestMatcher` (semdep/matchers/base.py): lockfile and
manifest recognized by exact file name; the manifest is looked up at
`lockfile.parent / manifest_name`; the subproject root is the manifest's
parent when one paired, else the lockfile's parent. -/
def exactLockfileManifestMatcherCls (lockfile_name : String)
    (manifest_name : Option String) (lockfile_kind : LockfileKind)
    (manifest_kind : ManifestKind) : LockfileManifestMatcherCls :=
  { manifest_kind := manifest_kind
    lockfile_kind := lockfile_kind
    is_manifest_match := fun path =>
      match manifest_name with
      | some n => pathName path == n
      | none => false
    is_lockfile_match := fun path => pathName path == lockfile_name
    lockfile_to_manifest := fun lockfile_path candidates =>
      match manifest_name with
      | some n =>
        let manifest_path := pathChild (pathParent lockfile_path) n
        if manifest_path ∈ candidates then some manifest_path else none
      | none => none
    get_subproject_root := fun manifest_path lockfile_path =>
      match manifest_path with
      | some mp => pathParent mp
      | none => pathParent lockfile_path }

/-- An `ExactLockfileManifestMatcher` packaged behind the matcher
interface. -/
def exactLockfileManifestMatcher (lockfile_name : String)
    (manifest_name : Option String) (lockfile_kind : LockfileKind)
    (manifest_kind : ManifestKind) : SubprojectMatcher :=
  let M := exactLockfileManifestMatcherCls lockfile_name manifest_name
    lockfile_kind manifest_kind
  { is_match := fun path => M.is_manifest_match path || M.is_lockfile_match path
    make_subprojects := M.make_subprojects }

/-- `ExactManifestOnlyMatcher` (semdep/matchers/base.py): one subproject per
lone manifest with the exact expected name, rooted at the manifest's parent
directory; the consumed files are exactly the matching manifests. -/
def exactManifestOnlyMatcher (manifest_name : String)
    (manifest_kind : ManifestKind) : SubprojectMatcher :=
  { is_match := fun path => pathName path == manifest_name
    make_subprojects := fun dep_source_files =>
      let manifests := dep_source_files.filter (fun p => pathName p == manifest_name)
      (manifests.map (fun manifest_path =>
        { root_dir := pathParent manifest_path
          dependency_source := .manifestOnly ⟨manifest_kind, manifest_path⟩ }),
        manifests) }

/-- `find_subprojects`' loop (semgrep/resolve_subprojects.py): thread the
accumulated `used_files` set; each matcher is passed only the candidate files
not yet used by an earlier matcher. -/
def find_subprojects_go (dependency_source_files : List FPath) :
    List SubprojectMatcher → List FPath → List Subproject →
    List Subproject × List FPath
  | [], used_files, acc => (acc, used_files)
  | matcher :: rest, used_files, acc =>
    let r := matcher.make_subprojects
      (dependency_source_files.filter (fun p => decide (p ∉ used_files)))
    find_subprojects_go dependency_source_files rest (used_files ++ r.2) (acc ++ r.1)

/-- `find_subprojects`: run the matchers in order over the shrinking
unconsumed candidate set and collect all subprojects produced. -/
def find_subprojects (dependency_source_files : List FPath)
    (matchers : List SubprojectMatcher) : List Subproject :=
  (find_subprojects_go dependency_source_files matchers [] []).1

/-- The files consumed across all matchers by a `find_subprojects` run. -/
def find_subprojects_used (dependency_source_files : List FPath)
    (matchers : List SubprojectMatcher) : List FPath :=
  (find_subprojects_go dependency_source_files matchers [] []).2

/-- The per-matcher `(offered files, consumed files)` trace of the
`find_subprojects` loop, for stating which files each matcher was offered. -/
def matcherTrace (dependency_source_files : List FPath) :
    List SubprojectMatcher → List FPath → List (List FPath × List FPath)
  | [], _ => []
  | matcher :: rest, used_files =>
    let offered := dependency_source_files.filter (fun p => decide (p ∉ used_files))
    let consumed := (matcher.make_subprojects offered).2
    (offered, consumed) :: matcherTrace dependency_source_files rest (used_files ++ consumed)

/-- The candidate files a lockfile-backed dependency source is built from. -/
def lockfileSourceFiles : LockfileDepSource → List FPath
  | .lockfileOnly l => [l.path]
  | .manifestLockfile m l => [l.path, m.path]

/-- The candidate files a dependency source is built from (its manifest and
lockfile paths, as in `to_stats_output`). -/
def sourceFiles : DependencySource → List FPath
  | .manifestOnly m => [m.path]
  | .lockfileOnly l => [l.path]
  | .manifestLockfile m l => [l.path, m.path]
  | .multiLockfile sources => (sources.map lockfileSourceFiles).flatten

/-- The loop state of `resolve_subprojects`: unresolved subprojects, resolved
subprojects grouped by ecosystem (an insertion-ordered dict, modelled as an
association list), and the dependency-target paths. -/
structure ResolveState where
  unresolved : List UnresolvedSubproject
  resolved : List (Ecosystem × List ResolvedSubproject)
  dependency_targets : List FPath

/-- `resolved[ecosystem].append(subproject)` with dict auto-vivification. -/
def addResolvedSubproject (resolved : List (Ecosystem × List ResolvedSubproject))
    (eco : Ecosystem) (sp : ResolvedSubproject) :
    List (Ecosystem × List ResolvedSubproject) :=
  if resolved.any (fun e => decide (e.1 = eco)) then
    resolved.map (fun e => if e.1 = eco then (e.1, e.2 ++ [sp]) else e)
  else resolved ++ [(eco, [sp])]

/-- One iteration of `resolve_subprojects`' dispatch loop: resolve one
discovered subproject and classify it as resolved or unresolved. -/
def resolveStep (env : Env)
    (allow_dynamic_resolution prioritize_dependency_graph_generation : Bool)
    (st : ResolveState) (to_resolve : Subproject) : ResolveState :=
  let r := resolve_dependency_source env to_resolve.dependency_source
    allow_dynamic_resolution prioritize_dependency_graph_generation
  let st := { st with dependency_targets := st.dependency_targets ++ r.2.2 }
  match r.1 with
  | some (ecosystem, resolution_method, deps) =>
    let resolved_subproject := ResolvedSubproject.from_unresolved
      to_resolve resolution_method r.2.1 deps ecosystem
    { st with resolved := addResolvedSubproject st.resolved ecosystem resolved_subproject }
  | none =>
    { st with unresolved :=
        st.unresolved ++ [UnresolvedSubproject.from_subproject to_resolve r.2.1] }

/-- `resolve_subprojects` (semgrep/resolve_subprojects.py): discover
subprojects with the matchers, dispatch each to the orchestrator, and
aggregate `(unresolved, resolved-by-ecosystem, dependency targets)`.
The Python function fixes `matchers := MATCHERS` and obtains the candidate
files from the target manager; both are parameters here. -/
def resolve_subprojects (env : Env) (dependency_source_files : List FPath)
    (matchers : List SubprojectMatcher)
    (allow_dynamic_resolution prioritize_dependency_graph_generation : Bool) :
    List UnresolvedSubproject × List (Ecosystem × List ResolvedSubproject) × List FPath :=
  let found_subprojects := find_subprojects dependency_source_files matchers
  let st := found_subprojects.foldl
    (resolveStep env allow_dynamic_resolution prioritize_dependency_graph_generation)
    ⟨[], [], []⟩
  (st.unresolved, st.resolved, st.dependency_targets)

/-- Substring occurrence over character lists (structural, so concrete runs
reduce in the kernel). -/
def charListContains : List Char → List Char → Bool
  | [], sub => sub.isEmpty
  | l@(_ :: t), sub => sub.isPrefixOf l || charListContains t sub

/-- Substring test used by the spec-modelled pip requirements matcher. -/
def strContains (s pat : String) : Bool := charListContains s.toList pat.toList

/-- The extension of a file name (text after the final dot; the whole name
when it has no dot). -/
def fileExt (n : String) : String :=
  String.mk ((n.toList.reverse.takeWhile (fun c => c ≠ '.')).reverse)

/-- Pip requirements lockfile recognition: a name containing "requirement"
with extension `txt` or `pip` (the constructor arguments registered in
subproject_matchers.py: `base_file_pattern="*requirement*"`,
`requirements_file_extensions=["txt", "pip"]`). -/
def pipIsLockfileMatch (p : FPath) : Bool :=
  strContains (pathName p) "requirement"
    && (fileExt (pathName p) == "txt" || fileExt (pathName p) == "pip")

/-- Pip requirements manifest recognition (`manifest_file_extension="in"`). -/
def pipIsManifestMatch (p : FPath) : Bool :=
  strContains (pathName p) "requirement" && fileExt (pathName p) == "in"

/-- One nested dependency source per requirements lockfile: paired with the
directory's `requirements.in` manifest when present, lockfile-only
otherwise. -/
def pipLockfileSource (hasManifest : Bool) (manifest_path l : FPath) :
    LockfileDepSource :=
  if hasManifest then
    .manifestLockfile ⟨.requirementsIn, manifest_path⟩ ⟨.pipRequirementsTxt, l⟩
  else .lockfileOnly ⟨.pipRequirementsTxt, l⟩

/-- The dependency source of one pip subproject: a single lockfile yields a
plain pair/lockfile-only source; several requirement files in one directory
form one multi-lockfile source (the spec's MultiLockfile data-model case). -/
def pipSourceFor (hasManifest : Bool) (manifest_path : FPath) :
    List FPath → DependencySource
  | [l] => (pipLockfileSource hasManifest manifest_path l).toDependencySource
  | ls => .multiLockfile (ls.map (pipLockfileSource hasManifest manifest_path))

/-- One pip subproject, anchored at a directory holding at least one
requirements lockfile. -/
def pipSubprojectFor (files lockfiles : List FPath) (d : FPath) : Subproject :=
  let manifest_path := pathChild d "requirements.in"
  let hasManifest := decide (manifest_path ∈ files)
  { root_dir := d
    dependency_source := pipSourceFor hasManifest manifest_path
      (lockfiles.filter (fun l => pathParent l == d)) }

/-- Modelled from the spec: the class `PipRequirementsMatcher`
(semdep/matchers/pip_requirements.py) is not among the provided sources; only
its registration in `subproject_matchers.py` is, with arguments
`base_file_pattern="*requirement*"`, `requirements_file_extensions=["txt",
"pip"]`, `manifest_file_extension="in"`,
`default_manifest_file_base="requirements"`. The spec requires that no
candidate file be attributed to two different subprojects (section 8's
matcher-exclusivity property and section 4.2's dispatch invariant), and a
subproject is one unit anchored at a directory (section 3), so the
requirement files of one directory are grouped into a single subproject
rooted there: its source pairs each recognized requirements lockfile with the
directory's `requirements.in` manifest when present, and several lockfiles
form one MultiLockfile source (the aggregation case of section 3's data
model). Consumed files are the recognized lockfiles plus the paired
manifests. -/
def pipRequirementsMatcher : SubprojectMatcher :=
  { is_match := fun p => pipIsManifestMatch p || pipIsLockfileMatch p
    make_subprojects := fun files =>
      let lockfiles := files.filter pipIsLockfileMatch
      let roots := (lockfiles.map pathParent).dedup
      let paired_manifests := roots.filterMap (fun d =>
        if pathChild d "requirements.in" ∈ files then
          some (pathChild d "requirements.in")
        else none)
      (roots.map (pipSubprojectFor files lockfiles), paired_manifests ++ lockfiles) }

/-- Modelled from the spec: the class `GradleMatcher`
(semdep/matchers/gradle.py) is not among the provided sources; only its
registration in `subproject_matchers.py` is. The spec names the Gradle
lockfile kind and the `BuildGradle` manifest kind, so it is modelled as an
exact pair matcher for `gradle.lockfile` / `build.gradle`. -/
def gradleMatcher : SubprojectMatcher :=
  exactLockfileManifestMatcher "gradle.lockfile" (some "build.gradle")
    .gradleLockfile .buildGradle

/-- The Go modules matcher: `go.mod` serves as both the lockfile and the
manifest name. -/
def goModMatcher : SubprojectMatcher :=
  exactLockfileManifestMatcher "go.mod" (some "go.mod") .goMod .goModManifest

/-- `MATCHERS` (semdep/subproject_matchers.py): the fixed, ordered matcher
registry. Matching is attempted in this order, and each dependency source
file is used by at most one matcher. -/
def MATCHERS : List SubprojectMatcher :=
  [ pipRequirementsMatcher
  , -- Npm
    exactLockfileManifestMatcher "package-lock.json" (some "package.json")
      .npmPackageLockJson .packageJson
  , exactLockfileManifestMatcher "yarn.lock" (some "package.json")
      .yarnLock .packageJson
  , exactLockfileManifestMatcher "pnpm-lock.yaml" (some "package.json")
      .pnpmLock .packageJson
  , -- Gem
    exactLockfileManifestMatcher "Gemfile.lock" (some "Gemfile")
      .gemfileLock .gemfileManifest
  , -- Go modules
    goModMatcher
  , -- Cargo
    exactLockfileManifestMatcher "Cargo.lock" (some "Cargo.toml")
      .cargoLock .cargoToml
  , -- Maven
    exactLockfileManifestMatcher "maven_dep_tree.txt" (some "pom.xml")
      .mavenDepTree .pomXml
  , exactManifestOnlyMatcher "pom.xml" .pomXml
  , gradleMatcher
  , -- Composer
    exactLockfileManifestMatcher "composer.lock" (some "composer.json")
      .composerLock .composerJson
  , -- Nuget
    exactLockfileManifestMatcher "packages.lock.json" (some "nuget.manifest.json")
      .nugetPackagesLockJson .nugetManifestJson
  , -- Pub
    exactLockfileManifestMatcher "pubspec.lock" (some "pubspec.yaml")
      .pubspecLock .pubspecYaml
  , -- Swift PM
    exactLockfileManifestMatcher "Package.resolved" (some "Package.swift")
      .swiftPackageResolved .packageSwift
  , -- Hex
    exactLockfileManifestMatcher "mix.lock" (some "mix.exs")
      .mixLock .mixExs
  , -- Pipenv
    exactLockfileManifestMatcher "Pipfile.lock" (some "Pipfile")
      .pipfileLock .pipfileManifest
  , -- Poetry
    exactLockfileManifestMatcher "poetry.lock" (some "pyproject.toml")
      .poetryLock .pyprojectToml
  , -- UV
    exactLockfileManifestMatcher "uv.lock" (some "pyproject.toml")
      .uvLock .pyprojectToml ]

/-- The lines emitted by `ResolvedDependencies.pretty_print`, as an abstract
syntax of the printed output. -/
inductive PrintLine
  | depLine (package version : String) (indent : Nat)
  | alreadyPrintedLine (indent : Nat)
  | headerDirect
  | headerTransitives
  | headerUnknown
  | flatLine (package version : String)
deriving DecidableEq

/-- `self._dependencies_by_package_version_pair[k]` as an optional lookup
(the Python subscript raises `KeyError` when absent, which the fueled
traversal below surfaces as `none`). -/
def lookupGroup (g : ResolvedDependencies) (k : DependencyChild) :
    Option (List FoundDependency) :=
  (g.entries.find? (fun e => decide (e.1 = k))).map (fun e => e.2)

/-- The recursive traversal loop over a dependency record's children,
parametric in the recursive call `f` (supplied with one unit of fuel less by
`pretty_print_dependency`). Each child key is looked up in the graph and its
*first* record is expanded; the printed-key set returned by the child call is
unioned into the running set, mirroring `already_printed |= ...`. A missing
key or an empty record group (a `KeyError`/`IndexError` in Python) aborts
with `none`. -/
def ppdChildren (g : ResolvedDependencies)
    (f : FoundDependency → Nat → Finset DependencyChild →
      Option (Finset DependencyChild × List PrintLine)) :
    List DependencyChild → Nat → Finset DependencyChild × List PrintLine →
    Option (Finset DependencyChild × List PrintLine)
  | [], _, st => some st
  | child :: rest, indent, st =>
    match lookupGroup g child with
    | some (child_dep :: _) =>
      match f child_dep (indent + 2) st.1 with
      | some (p', lines) => ppdChildren g f rest indent (st.1 ∪ p', st.2 ++ lines)
      | none => none
    | _ => none

/-- `pretty_print_dependency` (the inner function of
`ResolvedDependencies.pretty_print`), with explicit fuel standing for the
Python call stack: print the record's line; if its `(package, version)` key
was already printed, emit the "(already printed)" marker and return without
expanding children; otherwise add the key to the printed set and recurse into
the children. Returns the set of printed keys plus the emitted lines, or
`none` when the fuel runs out (the traversal would still be running). -/
def pretty_print_dependency (g : ResolvedDependencies) (fuel : Nat)
    (dep : FoundDependency) (indent : Nat)
    (already_printed : Finset DependencyChild) :
    Option (Finset DependencyChild × List PrintLine) :=
  match fuel with
  | 0 => none
  | fuel' + 1 =>
    let line := PrintLine.depLine dep.package dep.version indent
    if keyOf dep ∈ already_printed then
      some (already_printed, [line, .alreadyPrintedLine (indent + 1)])
    else
      let printed := insert (keyOf dep) already_printed
      match dep.children with
      | none => some (printed, [line])
      | some children =>
        ppdChildren g (fun d i ap => pretty_print_dependency g fuel' d i ap)
          children indent (printed, [line])

/-- The loop of `pretty_print` over the direct dependencies, accumulating
`printed_in_graph` and the emitted lines. Each walk calls
`pretty_print_dependency(direct)` with a *fresh empty* `already_printed` set
(the Python default argument), and only the returned set is unioned into
`printed_in_graph`. -/
def printDirects (g : ResolvedDependencies) (fuel : Nat) :
    List FoundDependency → Finset DependencyChild × List PrintLine →
    Option (Finset DependencyChild × List PrintLine)
  | [], st => some st
  | direct :: rest, st =>
    match pretty_print_dependency g fuel direct 0 ∅ with
    | some (p', lines) => printDirects g fuel rest (st.1 ∪ p', st.2 ++ lines)
    | none => none

/-- `ResolvedDependencies.pretty_print`: traverse from every direct
dependency with the cycle guard, then report any transitive or
unknown-transitivity keys not reached by the direct-dependency walk. -/
def ResolvedDependencies.pretty_print (g : ResolvedDependencies) (fuel : Nat) :
    Option (List PrintLine) :=
  let directs := g.iter_found_dependencies.filter
    (fun dep => decide (dep.transitivity = .direct))
  match printDirects g fuel directs (∅, [PrintLine.headerDirect]) with
  | none => none
  | some (printed_in_graph, lines) =>
    let transitives := (g.entries.map (fun e =>
      e.2.filter (fun dep =>
        decide (dep.transitivity = .transitive)
          && decide (e.1 ∉ printed_in_graph)))).flatten
    let unknown := (g.entries.map (fun e =>
      e.2.filter (fun dep =>
        decide (dep.transitivity = .unknownTransitivity)
          && decide (e.1 ∉ printed_in_graph)))).flatten
    some (lines
      ++ [PrintLine.headerTransitives]
      ++ transitives.map (fun dep => PrintLine.flatLine dep.package dep.version)
      ++ [PrintLine.headerUnknown]
      ++ unknown.map (fun dep => PrintLine.flatLine dep.package dep.version))

/-- The key set of a dependency graph. -/
def graphKeys (g : ResolvedDependencies) : Finset DependencyChild :=
  (g.entries.map Prod.fst).toFinset

/-- Whether a child key resolves to a non-empty record group (so that the
Python subscript-then-head `[child][0]` would succeed). -/
def hasNonemptyGroup (g : ResolvedDependencies) (k : DependencyChild) : Bool :=
  match lookupGroup g k with
  | some (_ :: _) => true
  | _ => false

/-- A record is in the graph when it belongs to some key's record group. -/
def depInGraph (g : ResolvedDependencies) (dep : FoundDependency) : Prop :=
  ∃ e ∈ g.entries, dep ∈ e.2

/-- Well-formedness of a dependency graph, as guaranteed by
`from_found_dependencies`: every record is indexed under its own
`(package, version)` key, and every child back-reference resolves to a
non-empty record group. -/
abbrev GraphWF (g : ResolvedDependencies) : Prop :=
  (∀ e ∈ g.entries, ∀ dep ∈ e.2, keyOf dep = e.1)
    ∧ (∀ e ∈ g.entries, ∀ dep ∈ e.2, ∀ c ∈ dep.children.getD [],
        hasNonemptyGroup g c = true)

/-- The filesystem and pattern-matching oracles consumed by the ignore
filter: Python's `fnmatch.fnmatch`, `Path.exists`, `Path.samefile` and
`Path.absolute`. -/
structure IgnoreEnv where
  fnmatch : String → String → Bool
  fileExists : FPath → Bool
  sameFile : FPath → FPath → Bool
  absolute : FPath → FPath

/-- `FileIgnore` (semgrep/ignores.py): base directory plus the compiled
fnmatch pattern set (the frozenset is modelled as a list; only iteration is
used). -/
structure FileIgnore where
  base_path : FPath
  fnmatch_patterns : List String

/-- POSIX rendering of an absolute path (`str(path)`). -/
def pathStr (p : FPath) : String := "/" ++ String.intercalate "/" p

/-- `str(path.relative_to(base))` for a path known to be inside `base`
(`.` when the two are equal). -/
def relStr (p base : FPath) : String :=
  if p = base then "." else String.intercalate "/" (p.drop base.length)

/-- The string a query path is matched as: relative to the filter's base
directory when the path is inside it, the full path otherwise. -/
def matchablePath (F : FileIgnore) (path : FPath) : String :=
  if F.base_path.isPrefixOf path then relStr path F.base_path else pathStr path

/-- Whether one compiled pattern is tested against, and matches, the query
path: patterns are only tested when the path is inside the base directory or
the pattern is explicitly depth-unanchored (`**/` prefix). -/
def patternApplies (env : IgnoreEnv) (F : FileIgnore) (path : FPath)
    (pat : String) : Prop :=
  (F.base_path.isPrefixOf path || pat.startsWith "**/") = true
    ∧ env.fnmatch (matchablePath F path) pat = true

/-- `FileIgnore._survives`: the path survives iff no compiled pattern
(subject to the anchoring guard) matches it. The Python loop's early
`return False` is the `any` below. -/
def fileIgnoreSurvives (env : IgnoreEnv) (F : FileIgnore) (path : FPath) : Bool :=
  let path_is_relative_to_base := F.base_path.isPrefixOf path
  let matchable_path :=
    if path_is_relative_to_base then relStr path F.base_path else pathStr path
  !(F.fnmatch_patterns.any (fun pat =>
    (path_is_relative_to_base || pat.startsWith "**/")
      && env.fnmatch matchable_path pat))

/-- `FileIgnore._filter`: a path is kept when it exists and either survives
the pattern set or is the filter's own base directory. -/
def fileIgnoreFilter (env : IgnoreEnv) (F : FileIgnore) (path : FPath) : Bool :=
  let absolute_path := env.absolute path
  env.fileExists path
    && (fileIgnoreSurvives env F absolute_path
        || env.sameFile absolute_path F.base_path)

/-- An environment whose RPC transport never answers and whose parsers find
nothing, for exercising the orchestrator on concrete inputs. -/
def noRpcEnv : Env :=
  { parsers := fun _ _ _ => ([], [])
    rpc := fun _ => none }

/-- The parser registry does not depend on the RPC half of the
environment. -/
theorem PARSERS_BY_LOCKFILE_KIND_rpc_irrelevant
    (parsers : LockfileKind → SemgrepParser)
    (rpc rpc' : List OutDependencySource →
      Option (List (OutDependencySource × ResolutionResult)))
    (k : LockfileKind) :
    PARSERS_BY_LOCKFILE_KIND ⟨parsers, rpc⟩ k
      = PARSERS_BY_LOCKFILE_KIND ⟨parsers, rpc'⟩ k := by
  cases k <;> rfl

/-- C5: for every dependency source of type ManifestOnly or
ManifestAndLockfile, when the dynamic resolver returns no response at all
(transport-level failure), `_resolve_dependencies_dynamically` returns no
result, an empty error list, and an empty target list. -/
theorem dynamic_resolution_transport_failure (env : Env) (ds : DynDepSource)
    (h : env.rpc [ds.to_semgrep_output] = none) :
    _resolve_dependencies_dynamically env ds = (none, [], []) := by
  unfold _resolve_dependencies_dynamically
  rw [h]

/-- Witness for C5: a concrete manifest-only source under a transport that
never responds. -/
theorem dynamic_resolution_transport_failure_witness :
    _resolve_dependencies_dynamically noRpcEnv
      (.manifestOnly ⟨.pomXml, ["proj", "pom.xml"]⟩) = (none, [], []) :=
  dynamic_resolution_transport_failure noRpcEnv
    (.manifestOnly ⟨.pomXml, ["proj", "pom.xml"]⟩) rfl

/-- C1: for every lockfile-backed dependency source, if dynamic resolution is
enabled and prioritized but the source's manifest kind is not in the
dependency-graph allow-list — or the source has no manifest — then
`resolve_dependency_source` never attempts dynamic resolution (its result
does not depend on the RPC transport) and resolves via the registered static
parser, returning resolution method LockfileParsing. -/
theorem lockfile_source_static_outside_allowlist
    (parsers : LockfileKind → SemgrepParser)
    (rpc rpc' : List OutDependencySource →
      Option (List (OutDependencySource × ResolutionResult)))
    (ds : LockfileDepSource) (pf : SemgrepParser) (eco : Ecosystem)
    (hnd : ∀ m l, ds = .manifestLockfile m l →
      m.kind ∉ DEPENDENCY_GRAPH_SUPPORTED_MANIFEST_KINDS)
    (hp : PARSERS_BY_LOCKFILE_KIND ⟨parsers, rpc⟩ ds.lockfile.kind = some pf)
    (he : ECOSYSTEM_BY_LOCKFILE_KIND ds.lockfile.kind = some eco) :
    resolve_dependency_source ⟨parsers, rpc⟩ ds.toDependencySource true true
      = resolve_dependency_source ⟨parsers, rpc'⟩ ds.toDependencySource true true
    ∧ resolve_dependency_source ⟨parsers, rpc⟩ ds.toDependencySource true true
      = (some (eco, .lockfileParsing,
          (pf ds.lockfile.path (ds.manifest?.map Manifest.path)).1),
        (pf ds.lockfile.path (ds.manifest?.map Manifest.path)).2.map SemErr.parseErr,
        [ds.lockfile.path]) := by
  have hp' : PARSERS_BY_LOCKFILE_KIND ⟨parsers, rpc'⟩ ds.lockfile.kind = some pf :=
    (PARSERS_BY_LOCKFILE_KIND_rpc_irrelevant parsers rpc rpc' _) ▸ hp
  cases ds with
  | lockfileOnly l =>
    simp only [LockfileDepSource.lockfile] at hp hp' he
    simp [resolve_dependency_source, LockfileDepSource.toDependencySource,
      _handle_lockfile_source, hp, hp', he, LockfileDepSource.lockfile,
      LockfileDepSource.manifest?]
  | manifestLockfile m l =>
    have hk : m.kind ∉ DEPENDENCY_GRAPH_SUPPORTED_MANIFEST_KINDS := hnd m l rfl
    simp only [LockfileDepSource.lockfile] at hp hp' he
    simp [resolve_dependency_source, LockfileDepSource.toDependencySource,
      _handle_lockfile_source, hp, hp', he, hk, LockfileDepSource.lockfile,
      LockfileDepSource.manifest?]

/-- Witness for C1: a concrete npm manifest+lockfile pair (the `PackageJson`
manifest kind is outside the dependency-graph allow-list) resolved under two
different transports, one that never answers and one that always claims
success. -/
theorem lockfile_source_static_outside_allowlist_witness :
    resolve_dependency_source noRpcEnv
      (DependencySource.manifestLockfile ⟨.packageJson, ["a", "package.json"]⟩
        ⟨.npmPackageLockJson, ["a", "package-lock.json"]⟩) true true
      = (some (.npm, .lockfileParsing, []), [], [["a", "package-lock.json"]]) := by
  have h := lockfile_source_static_outside_allowlist
    noRpcEnv.parsers noRpcEnv.rpc
    (fun _ => some [(.lockfileOnly ⟨.npmPackageLockJson, []⟩, .resolutionOk [] [])])
    (.manifestLockfile ⟨.packageJson, ["a", "package.json"]⟩
      ⟨.npmPackageLockJson, ["a", "package-lock.json"]⟩)
    (noRpcEnv.parsers .npmPackageLockJson) .npm
    (by intro m l hml; cases hml; decide) rfl rfl
  exact h.2

/-- C4: for every query path and compiled ignore filter, the path survives
the filter iff no fnmatch pattern in the compiled set matches it (patterns
being tested subject to the anchored/unanchored guard for paths outside the
base directory, as the spec describes); and the filter's own base directory
always survives (is kept by `_filter`) regardless of the pattern set. -/
theorem ignore_filter_survives_iff (env : IgnoreEnv) (F : FileIgnore)
    (path : FPath)
    (hex : env.fileExists F.base_path = true)
    (hsame : env.sameFile (env.absolute F.base_path) F.base_path = true) :
    (fileIgnoreSurvives env F path = true
      ↔ ¬ ∃ pat ∈ F.fnmatch_patterns, patternApplies env F path pat)
    ∧ fileIgnoreFilter env F F.base_path = true := by
  constructor
  · rw [fileIgnoreSurvives]
    simp only [Bool.not_eq_true', List.any_eq_false, patternApplies,
      matchablePath, Bool.and_eq_true, not_exists]
    constructor
    · intro h pat hc
      exact h pat hc.1 ⟨hc.2.1, hc.2.2⟩
    · intro h pat hmem hc
      exact h pat ⟨hmem, hc.1, hc.2⟩
  · rw [fileIgnoreFilter]
    simp [hex, hsame]

/-- Witness for C4: a concrete filter whose single pattern matches
everything, with well-behaved filesystem oracles; the base directory is
still kept. -/
theorem ignore_filter_survives_iff_witness :
    fileIgnoreFilter
      ⟨fun _ _ => true, fun _ => true, fun a b => a == b, id⟩
      ⟨["repo"], ["**/*"]⟩ ["repo"] = true :=
  (ignore_filter_survives_iff
    ⟨fun _ _ => true, fun _ => true, fun a b => a == b, id⟩
    ⟨["repo"], ["**/*"]⟩ ["repo", "src"] rfl (by decide)).2

/-- Rebuilding a path from its parent and its (non-root) name: when a path's
final segment is `n ≠ ""`, `parent / n` is the path itself. -/
theorem pathChild_parent_self (l : FPath) (n : String) (hn : n ≠ "")
    (h : pathName l = n) : pathChild (pathParent l) n = l := by
  cases l with
  | nil =>
    exfalso
    apply hn
    simpa [pathName] using h.symm
  | cons a as =>
    have hne : (a :: as : FPath) ≠ [] := by simp
    have hlast : (a :: as : FPath).getLast hne = n := by
      rw [← h]
      simp [pathName, List.getLastD_eq_getLast?, List.getLast?_eq_getLast _ hne]
    rw [pathChild, pathParent, ← hlast, List.dropLast_append_getLast hne]

/-- C10: for the Go modules matcher (lockfile name and manifest name both
`go.mod`), every candidate file named `go.mod` pairs with itself: the
produced subprojects are exactly one ManifestAndLockfile source per `go.mod`
file, with the manifest path equal to the lockfile path (never a
lockfile-only source) and root equal to that file's parent directory. -/
theorem go_mod_matcher_self_pairs (files : List FPath) :
    (goModMatcher.make_subprojects files).1
      = (files.filter (fun p => pathName p == "go.mod")).map (fun l =>
          { root_dir := pathParent l
            dependency_source :=
              .manifestLockfile ⟨.goModManifest, l⟩ ⟨.goMod, l⟩ }) := by
  show (List.filter _ files).map _ = _
  apply List.map_congr_left
  intro l hl
  rw [List.mem_filter] at hl
  have hname : pathName l = "go.mod" := by
    have h2 := hl.2
    rw [exactLockfileManifestMatcherCls] at h2
    simpa [beq_iff_eq] using h2
  have hself : pathChild (pathParent l) "go.mod" = l :=
    pathChild_parent_self l "go.mod" (by decide) hname
  rw [mkLockfileSubproject]
  have : (exactLockfileManifestMatcherCls "go.mod" (some "go.mod") .goMod
      .goModManifest).lockfile_to_manifest l files = some l := by
    rw [exactLockfileManifestMatcherCls]
    simp only [hself]
    rw [if_pos hl.1]
  rw [this]
  rfl

/-- C6: for every lockfile matched by an exact pair-matcher, a subproject is
produced either way: if a co-located manifest with the expected exact name is
found among the candidate files (`_lockfile_to_manifest` returns it), the
subproject's root equals the manifest's parent directory; if no manifest
pairs, the root equals the lockfile's parent directory and the source is
lockfile-only. -/
theorem exact_matcher_root_dir_policy (lockfile_name : String)
    (manifest_name : Option String) (lockfile_kind : LockfileKind)
    (manifest_kind : ManifestKind) (files : List FPath) (l : FPath)
    (hl : l ∈ files) (hname : pathName l = lockfile_name) :
    ∃ sp ∈ ((exactLockfileManifestMatcher lockfile_name manifest_name
        lockfile_kind manifest_kind).make_subprojects files).1,
      (∀ mp, (exactLockfileManifestMatcherCls lockfile_name manifest_name
          lockfile_kind manifest_kind).lockfile_to_manifest l files = some mp →
        sp.root_dir = pathParent mp
          ∧ sp.dependency_source
              = .manifestLockfile ⟨manifest_kind, mp⟩ ⟨lockfile_kind, l⟩)
      ∧ ((exactLockfileManifestMatcherCls lockfile_name manifest_name
          lockfile_kind manifest_kind).lockfile_to_manifest l files = none →
        sp.root_dir = pathParent l
          ∧ sp.dependency_source = .lockfileOnly ⟨lockfile_kind, l⟩) := by
  refine ⟨mkLockfileSubproject (exactLockfileManifestMatcherCls lockfile_name
    manifest_name lockfile_kind manifest_kind) files l, ?_, ?_, ?_⟩
  · show _ ∈ (List.filter _ files).map _
    apply List.mem_map_of_mem
    rw [List.mem_filter]
    refine ⟨hl, ?_⟩
    show (pathName l == lockfile_name) = true
    simp [hname]
  · intro mp hmp
    rw [mkLockfileSubproject, hmp]
    cases manifest_name with
    | none => simp [exactLockfileManifestMatcherCls] at hmp
    | some n =>
      constructor
      · show (exactLockfileManifestMatcherCls lockfile_name (some n)
          lockfile_kind manifest_kind).get_subproject_root (some mp) l = pathParent mp
        rfl
      · rfl
  · intro hmp
    rw [mkLockfileSubproject, hmp]
    exact ⟨rfl, rfl⟩

/-- Witness for C6: a concrete poetry lockfile with its pyproject manifest
present in the candidate set. -/
theorem exact_matcher_root_dir_policy_witness :
    ∃ sp ∈ ((exactLockfileManifestMatcher "poetry.lock" (some "pyproject.toml")
        .poetryLock .pyprojectToml).make_subprojects
        [["proj", "poetry.lock"], ["proj", "pyproject.toml"]]).1,
      (∀ mp, (exactLockfileManifestMatcherCls "poetry.lock"
          (some "pyproject.toml") .poetryLock
          .pyprojectToml).lockfile_to_manifest ["proj", "poetry.lock"]
          [["proj", "poetry.lock"], ["proj", "pyproject.toml"]] = some mp →
        sp.root_dir = pathParent mp
          ∧ sp.dependency_source = .manifestLockfile ⟨.pyprojectToml, mp⟩
              ⟨.poetryLock, ["proj", "poetry.lock"]⟩)
      ∧ ((exactLockfileManifestMatcherCls "poetry.lock" (some "pyproject.toml")
          .poetryLock .pyprojectToml).lockfile_to_manifest
          ["proj", "poetry.lock"]
          [["proj", "poetry.lock"], ["proj", "pyproject.toml"]] = none →
        sp.root_dir = pathParent ["proj", "poetry.lock"]
          ∧ sp.dependency_source
              = .lockfileOnly ⟨.poetryLock, ["proj", "poetry.lock"]⟩) :=
  exact_matcher_root_dir_policy "poetry.lock" (some "pyproject.toml")
    .poetryLock .pyprojectToml
    [["proj", "poetry.lock"], ["proj", "pyproject.toml"]]
    ["proj", "poetry.lock"] (by decide) (by decide)

/-- Whether a resolution result represents a dynamically resolved source. -/
def resolvedDynamically (x : DependencyResolutionResult) : Bool :=
  match x.1 with
  | some (_, .dynamic, _) => true
  | _ => false

/-- The dependencies a resolution result contributed (none if it produced no
result). -/
def producedDeps (x : DependencyResolutionResult) : List FoundDependency :=
  match x.1 with
  | some (_, _, d) => d
  | none => []

/-- Nested sources of a multi-lockfile source are routed through
`resolve_dependency_source` with its default flags, which dispatches them to
`_handle_lockfile_source`. -/
theorem resolve_nested_eq (env : Env) (s : LockfileDepSource) :
    resolve_dependency_source env s.toDependencySource true false
      = _handle_lockfile_source env s true false := by
  cases s <;> rfl

theorem multi_fold_errors (env : Env) :
    ∀ (sources : List LockfileDepSource) (acc : MultiAcc),
      (sources.foldl (multiLockfileStep env) acc).all_parse_errors
        = acc.all_parse_errors
          ++ (sources.map (fun s =>
              (_handle_lockfile_source env s true false).2.1)).flatten := by
  intro sources
  induction sources with
  | nil => intro acc; simp
  | cons s ss ih =>
    intro acc
    rw [List.foldl_cons, ih]
    have hstep : (multiLockfileStep env acc s).all_parse_errors
        = acc.all_parse_errors ++ (_handle_lockfile_source env s true false).2.1 := by
      rw [multiLockfileStep]
      cases h : (_handle_lockfile_source env s true false).1 with
      | none => rfl
      | some v => obtain ⟨eco, m, deps⟩ := v; rfl
    rw [hstep]
    simp

theorem multi_fold_targets (env : Env) :
    ∀ (sources : List LockfileDepSource) (acc : MultiAcc),
      (sources.foldl (multiLockfileStep env) acc).all_dep_targets
        = acc.all_dep_targets
          ++ (sources.map (fun s =>
              (_handle_lockfile_source env s true false).2.2)).flatten := by
  intro sources
  induction sources with
  | nil => intro acc; simp
  | cons s ss ih =>
    intro acc
    rw [List.foldl_cons, ih]
    have hstep : (multiLockfileStep env acc s).all_dep_targets
        = acc.all_dep_targets ++ (_handle_lockfile_source env s true false).2.2 := by
      rw [multiLockfileStep]
      cases h : (_handle_lockfile_source env s true false).1 with
      | none => rfl
      | some v => obtain ⟨eco, m, deps⟩ := v; rfl
    rw [hstep]
    simp

theorem multi_fold_deps (env : Env) :
    ∀ (sources : List LockfileDepSource) (acc : MultiAcc),
      (sources.foldl (multiLockfileStep env) acc).all_resolved_deps
        = acc.all_resolved_deps
          ++ (sources.map (fun s =>
              producedDeps (_handle_lockfile_source env s true false))).flatten := by
  intro sources
  induction sources with
  | nil => intro acc; simp
  | cons s ss ih =>
    intro acc
    rw [List.foldl_cons, ih]
    have hstep : (multiLockfileStep env acc s).all_resolved_deps
        = acc.all_resolved_deps
          ++ producedDeps (_handle_lockfile_source env s true false) := by
      rw [multiLockfileStep, producedDeps]
      cases h : (_handle_lockfile_source env s true false).1 with
      | none => simp [h]
      | some v => obtain ⟨eco, m, deps⟩ := v; simp [h]
    rw [hstep]
    simp

theorem getLast?_cons_or {α : Type _} (a : α) (l : List α) :
    (a :: l).getLast? = l.getLast?.or (some a) := by
  cases l with
  | nil => rfl
  | cons b t =>
    cases h : (b :: t).getLast? with
    | none =>
      exfalso
      rw [List.getLast?_eq_none_iff] at h
      exact List.cons_ne_nil b t h
    | some x => rw [List.getLast?_cons_cons, h, Option.or]

/-- The ecosystem of the last nested source that produced a result. -/
def lastProducedEco (env : Env) (sources : List LockfileDepSource) :
    Option Ecosystem :=
  (sources.filterMap (fun s =>
    (_handle_lockfile_source env s true false).1.map (fun t => t.1))).getLast?

theorem multi_fold_eco (env : Env) :
    ∀ (sources : List LockfileDepSource) (acc : MultiAcc),
      (sources.foldl (multiLockfileStep env) acc).ecosystem
        = (lastProducedEco env sources).or acc.ecosystem := by
  intro sources
  induction sources with
  | nil => intro acc; simp [lastProducedEco]
  | cons s ss ih =>
    intro acc
    rw [List.foldl_cons, ih]
    have hstep : (multiLockfileStep env acc s).ecosystem
        = ((_handle_lockfile_source env s true false).1.map (fun t => t.1)).or
            acc.ecosystem := by
      rw [multiLockfileStep]
      cases h : (_handle_lockfile_source env s true false).1 with
      | none => simp [h]
      | some v => obtain ⟨eco, m, deps⟩ := v; simp [h]
    rw [hstep]
    have hlast : lastProducedEco env (s :: ss)
        = (lastProducedEco env ss).or
            ((_handle_lockfile_source env s true false).1.map (fun t => t.1)) := by
      rw [lastProducedEco, lastProducedEco, List.filterMap_cons]
      cases h : (_handle_lockfile_source env s true false).1 with
      | none => simp [h]
      | some v => simp [h, getLast?_cons_or]
    rw [hlast, Option.or_assoc]

theorem multi_fold_methods_dynamic (env : Env) :
    ∀ (sources : List LockfileDepSource) (acc : MultiAcc),
      (ResolutionMethod.dynamic
          ∈ (sources.foldl (multiLockfileStep env) acc).resolution_methods)
        ↔ (ResolutionMethod.dynamic ∈ acc.resolution_methods
            ∨ (sources.map (fun s =>
                _handle_lockfile_source env s true false)).any resolvedDynamically
                = true) := by
  intro sources
  induction sources with
  | nil => intro acc; simp
  | cons s ss ih =>
    intro acc
    rw [List.foldl_cons, ih]
    have hstep : (ResolutionMethod.dynamic
          ∈ (multiLockfileStep env acc s).resolution_methods)
        ↔ (ResolutionMethod.dynamic ∈ acc.resolution_methods
            ∨ resolvedDynamically (_handle_lockfile_source env s true false) = true) := by
      rw [multiLockfileStep, resolvedDynamically]
      cases h : (_handle_lockfile_source env s true false).1 with
      | none => simp [h]
      | some v =>
        obtain ⟨eco, m, deps⟩ := v
        cases m with
        | lockfileParsing =>
          simp only [h]
          by_cases hm : ResolutionMethod.lockfileParsing ∈ acc.resolution_methods
          · simp [hm]
          · simp [hm, List.mem_append]
        | dynamic =>
          simp only [h]
          by_cases hm : ResolutionMethod.dynamic ∈ acc.resolution_methods
          · simp [hm]
          · simp [hm, List.mem_append]
    rw [hstep]
    simp only [List.map_cons, List.any_cons, Bool.or_eq_true]
    tauto

/-- C2: for every MultiLockfile source, resolving it yields a
found-dependency list equal to the concatenation of the nested sources'
results in nested-source order, an error list and target list equal to the
concatenation of all nested errors/targets, resolution method Dynamic iff at
least one nested source resolved dynamically (else LockfileParsing),
ecosystem equal to that of the last nested source that produced a result
(`getLast?` of the produced ecosystems), and no result at all when no nested
source produced one. -/
theorem multi_lockfile_merge (env : Env) (sources : List LockfileDepSource)
    (a b : Bool) :
    resolve_dependency_source env (.multiLockfile sources) a b
      = ((sources.filterMap (fun s =>
            (resolve_dependency_source env s.toDependencySource true false).1.map
              (fun t => t.1))).getLast?.map (fun eco =>
          (eco,
            if (sources.map (fun s =>
                resolve_dependency_source env s.toDependencySource true false)).any
                resolvedDynamically = true then
              ResolutionMethod.dynamic
            else ResolutionMethod.lockfileParsing,
            (sources.map (fun s => producedDeps
              (resolve_dependency_source env s.toDependencySource true false))).flatten)),
        (sources.map (fun s =>
          (resolve_dependency_source env s.toDependencySource true false).2.1)).flatten,
        (sources.map (fun s =>
          (resolve_dependency_source env s.toDependencySource true false).2.2)).flatten) := by
  have hnested : ∀ s : LockfileDepSource,
      resolve_dependency_source env s.toDependencySource true false
        = _handle_lockfile_source env s true false := resolve_nested_eq env
  simp only [hnested]
  show _handle_multi_lockfile_source env sources = _
  rw [_handle_multi_lockfile_source]
  have herr := multi_fold_errors env sources ⟨[], [], [], [], none⟩
  have htgt := multi_fold_targets env sources ⟨[], [], [], [], none⟩
  have hdep := multi_fold_deps env sources ⟨[], [], [], [], none⟩
  have heco := multi_fold_eco env sources ⟨[], [], [], [], none⟩
  have hdyn := multi_fold_methods_dynamic env sources ⟨[], [], [], [], none⟩
  simp only [List.nil_append] at herr htgt hdep
  rw [Option.or_none] at heco
  simp only [List.not_mem_nil, false_or] at hdyn
  rw [herr, htgt, hdep, heco]
  rw [lastProducedEco]
  cases hl : (sources.filterMap (fun s =>
      (_handle_lockfile_source env s true false).1.map (fun t => t.1))).getLast? with
  | none => simp
  | some eco =>
    simp only [Option.map_some]
    congr 2
    rw [if_congr hdyn rfl rfl]

/-- Witness for C2 (no hypotheses are needed; this exercises the theorem on a
concrete two-lockfile source): two npm lockfiles under `noRpcEnv` merge to a
statically resolved npm result with concatenated (empty) dependency lists and
the two lockfile paths as targets. -/
theorem multi_lockfile_merge_witness :
    resolve_dependency_source noRpcEnv
      (.multiLockfile
        [.lockfileOnly ⟨.npmPackageLockJson, ["a", "package-lock.json"]⟩,
         .lockfileOnly ⟨.yarnLock, ["b", "yarn.lock"]⟩]) true false
      = (some (.npm, .lockfileParsing, []), [],
          [["a", "package-lock.json"], ["b", "yarn.lock"]]) := by
  rw [multi_lockfile_merge]
  decide


/-- A prefix of `xs ++ [x]` is either the whole list or a prefix of `xs`. -/
theorem prefix_append_singleton_iff {α : Type _} (a xs : List α) (x : α) :
    a <+: xs ++ [x] ↔ a = xs ++ [x] ∨ a <+: xs := by
  constructor
  · intro h
    rcases Nat.lt_or_ge a.length (xs ++ [x]).length with hlt | hge
    · right
      have hle : a.length ≤ xs.length := by
        simpa [List.length_append] using Nat.lt_succ_iff.mp (by simpa using hlt)
      have := List.prefix_iff_eq_take.mp h
      rw [List.take_append_of_le_length hle] at this
      rw [this]
      exact List.take_prefix _ _
    · left
      exact h.eq_of_length (Nat.le_antisymm h.length_le hge)
  · rintro (rfl | h)
    · exact List.prefix_refl _
    · exact h.trans (List.prefix_append xs [x])

/-- Unfolding `pathAncestors` on a non-root path. -/
theorem pathAncestors_ne_nil_eq (p : FPath) (h : p ≠ []) :
    pathAncestors p = p :: pathAncestors (pathParent p) := by
  cases p with
  | nil => exact absurd rfl h
  | cons x xs =>
    show pathAncestorsGo (xs.length + 1) (x :: xs)
      = (x :: xs) :: pathAncestors (pathParent (x :: xs))
    rw [pathAncestorsGo, pathAncestors]
    have : (pathParent (x :: xs)).length = xs.length := by
      simp [pathParent, List.length_dropLast]
    rw [this]

/-- Ancestors are exactly the prefixes of a path's segment list (the path
itself included). -/
theorem mem_pathAncestors_iff (a : FPath) (p : FPath) :
    a ∈ pathAncestors p ↔ a <+: p := by
  induction p using List.reverseRecOn with
  | nil =>
    rw [pathAncestors]
    simp [pathAncestorsGo]
  | append_singleton xs x ih =>
    rw [pathAncestors_ne_nil_eq _ (by simp), pathParent, List.dropLast_concat,
      List.mem_cons, ih, prefix_append_singleton_iff]

/-- In a list sorted by root depth descending, `find?` returns an element of
maximal depth among those satisfying the predicate. -/
theorem find?_max_of_sorted_rootLenDesc (p : ResolvedSubproject → Bool) :
    ∀ (l : List ResolvedSubproject), l.Sorted rootLenDesc →
      ∀ c, l.find? p = some c →
        ∀ x ∈ l, p x = true → x.root_dir.length ≤ c.root_dir.length := by
  intro l
  induction l with
  | nil => intro _ c hc; simp at hc
  | cons a t ih =>
    intro hs c hc x hx hpx
    by_cases hpa : p a = true
    · rw [List.find?_cons_of_pos _ hpa, Option.some_inj] at hc
      subst hc
      rcases List.mem_cons.mp hx with rfl | hxt
      · exact Nat.le_refl _
      · exact List.rel_of_sorted_cons hs x hxt
    · rw [List.find?_cons_of_neg _ (by simpa using hpa)] at hc
      rcases List.mem_cons.mp hx with rfl | hxt
      · exact absurd hpx hpa
      · exact ih hs.of_cons c hc x hxt hpx

/-- C7: for every query path, ecosystem, and candidate list of
ResolvedSubprojects all sharing that ecosystem, `find_closest_subproject`
returns a candidate whose root directory is an ancestor of the path
(including the path itself) with the greatest number of path segments among
all such candidates, and returns none exactly when no candidate's root is an
ancestor of the path. -/
theorem find_closest_subproject_spec (path : FPath) (eco : Ecosystem)
    (candidates : List ResolvedSubproject)
    (hall : ∀ c ∈ candidates, c.ecosystem = eco) :
    (∀ c, find_closest_subproject path eco candidates = some c →
      c ∈ candidates ∧ c.root_dir <+: path
        ∧ ∀ x ∈ candidates, x.root_dir <+: path →
            x.root_dir.length ≤ c.root_dir.length)
    ∧ (find_closest_subproject path eco candidates = none
        ↔ ∀ c ∈ candidates, ¬ c.root_dir <+: path) := by
  have hperm := List.perm_insertionSort rootLenDesc candidates
  have hsorted := List.sorted_insertionSort rootLenDesc candidates
  set q : ResolvedSubproject → Bool := fun candidate =>
    (pathAncestors path).any (fun parent =>
      decide (candidate.root_dir = parent)) && decide (candidate.ecosystem = eco)
    with hq
  have hqiff : ∀ x ∈ candidates, (q x = true ↔ x.root_dir <+: path) := by
    intro x hx
    rw [hq]
    simp only [Bool.and_eq_true, List.any_eq_true, decide_eq_true_eq]
    constructor
    · rintro ⟨⟨par, hpar, rfl⟩, _⟩
      exact (mem_pathAncestors_iff _ path).mp hpar
    · intro hpre
      exact ⟨⟨x.root_dir, (mem_pathAncestors_iff _ path).mpr hpre, rfl⟩, hall x hx⟩
  constructor
  · intro c hc
    rw [find_closest_subproject] at hc
    have hcmem : c ∈ candidates := hperm.mem_iff.mp (List.mem_of_find?_eq_some hc)
    have hqc : q c = true := List.find?_some hc
    refine ⟨hcmem, (hqiff c hcmem).mp hqc, ?_⟩
    intro x hx hxpre
    exact find?_max_of_sorted_rootLenDesc q _ hsorted c hc x
      (hperm.mem_iff.mpr hx) ((hqiff x hx).mpr hxpre)
  · rw [find_closest_subproject, List.find?_eq_none]
    constructor
    · intro h c hcmem hpre
      exact h c (hperm.mem_iff.mpr hcmem) ((hqiff c hcmem).mpr hpre)
    · intro h x hxmem hqx
      have hxc : x ∈ candidates := hperm.mem_iff.mp hxmem
      exact h x hxc ((hqiff x hxc).mp hqx)

/-- An npm subproject rooted at `/repo`. -/
def demoRepoSubproject : ResolvedSubproject :=
  { root_dir := ["repo"]
    dependency_source := .lockfileOnly ⟨.npmPackageLockJson, ["repo", "package-lock.json"]⟩
    ecosystem := .npm
    resolution_errors := []
    resolution_method := .lockfileParsing
    found_dependencies := ⟨[]⟩ }

/-- An npm subproject rooted at `/repo/services/api`. -/
def demoApiSubproject : ResolvedSubproject :=
  { root_dir := ["repo", "services", "api"]
    dependency_source := .lockfileOnly
      ⟨.npmPackageLockJson, ["repo", "services", "api", "package-lock.json"]⟩
    ecosystem := .npm
    resolution_errors := []
    resolution_method := .lockfileParsing
    found_dependencies := ⟨[]⟩ }

/-- Witness for C7, the spec's own example: with candidates rooted at
`/repo` and `/repo/services/api` (same ecosystem), the query path
`/repo/services/api/src/main` selects the deeper root. -/
theorem find_closest_subproject_spec_witness :
    demoApiSubproject ∈ [demoRepoSubproject, demoApiSubproject]
      ∧ demoApiSubproject.root_dir <+: ["repo", "services", "api", "src", "main"]
      ∧ ∀ x ∈ [demoRepoSubproject, demoApiSubproject],
          x.root_dir <+: ["repo", "services", "api", "src", "main"] →
            x.root_dir.length ≤ demoApiSubproject.root_dir.length :=
  (find_closest_subproject_spec ["repo", "services", "api", "src", "main"]
    .npm [demoRepoSubproject, demoApiSubproject] (by decide)).1
    demoApiSubproject (by rfl)

/-- The printed-key set only grows across a children traversal (generic in
the recursive call `f`, provided `f` itself only grows the set). -/
theorem ppdChildren_subset (g : ResolvedDependencies)
    (f : FoundDependency → Nat → Finset DependencyChild →
      Option (Finset DependencyChild × List PrintLine)) :
    ∀ (cs : List DependencyChild) (indent : Nat)
      (st res : Finset DependencyChild × List PrintLine),
      ppdChildren g f cs indent st = some res → st.1 ⊆ res.1 := by
  intro cs
  induction cs with
  | nil =>
    intro indent st res h
    rw [ppdChildren, Option.some_inj] at h
    rw [← h]
  | cons c rest ih =>
    intro indent st res h
    rw [ppdChildren] at h
    split at h
    · split at h
      · exact fun x hx => ih indent _ res h (Finset.mem_union_left _ hx)
      · exact Option.noConfusion h
    · exact Option.noConfusion h

/-- The printed-key set only grows across `pretty_print_dependency`. -/
theorem pretty_print_dependency_subset (g : ResolvedDependencies) :
    ∀ (fuel : Nat) (dep : FoundDependency) (indent : Nat)
      (ap : Finset DependencyChild) (res : Finset DependencyChild × List PrintLine),
      pretty_print_dependency g fuel dep indent ap = some res → ap ⊆ res.1 := by
  intro fuel
  induction fuel with
  | zero => intro dep indent ap res h; exact absurd h (by simp [pretty_print_dependency])
  | succ fuel' ih =>
    intro dep indent ap res h
    rw [pretty_print_dependency] at h
    by_cases hk : keyOf dep ∈ ap
    · rw [if_pos hk, Option.some_inj] at h
      rw [← h]
    · rw [if_neg hk] at h
      cases hc : dep.children with
      | none =>
        rw [hc, Option.some_inj] at h
        rw [← h]
        exact Finset.subset_insert _ _
      | some cs =>
        rw [hc] at h
        exact (Finset.subset_insert _ ap).trans
          (ppdChildren_subset g _ cs indent _ res h)

/-- Marking a fresh graph key as printed shrinks the unprinted-key set by
exactly one. -/
theorem sdiff_insert_card (K ap : Finset DependencyChild) (k : DependencyChild)
    (hkK : k ∈ K) (hkap : k ∉ ap) :
    (K \ insert k ap).card + 1 = (K \ ap).card := by
  have he : K \ insert k ap = (K \ ap).erase k := by
    ext x
    simp only [Finset.mem_sdiff, Finset.mem_insert, Finset.mem_erase]
    tauto
  have hmem : k ∈ K \ ap := Finset.mem_sdiff.mpr ⟨hkK, hkap⟩
  rw [he, Finset.card_erase_of_mem hmem]
  have : 1 ≤ (K \ ap).card := Finset.card_pos.mpr ⟨k, hmem⟩
  omega

/-- The head record of a key's group belongs to the graph. -/
theorem lookup_head_inGraph (g : ResolvedDependencies) (c : DependencyChild)
    (d : FoundDependency) (tl : List FoundDependency)
    (h : lookupGroup g c = some (d :: tl)) : depInGraph g d := by
  rw [lookupGroup] at h
  cases hf : g.entries.find? (fun e => decide (e.1 = c)) with
  | none => rw [hf] at h; exact Option.noConfusion h
  | some e =>
    rw [hf] at h
    refine ⟨e, List.mem_of_find?_eq_some hf, ?_⟩
    have h2 : e.2 = d :: tl := by simpa using h
    rw [h2]
    exact List.mem_cons_self _ _

/-- A graph record's key belongs to the graph's key set (given the indexing
half of well-formedness). -/
theorem keyOf_mem_graphKeys (g : ResolvedDependencies) (dep : FoundDependency)
    (hwfk : ∀ e ∈ g.entries, ∀ d ∈ e.2, keyOf d = e.1)
    (hin : depInGraph g dep) : keyOf dep ∈ graphKeys g := by
  obtain ⟨e, he, hd⟩ := hin
  rw [graphKeys, List.mem_toFinset, hwfk e he dep hd]
  exact List.mem_map_of_mem Prod.fst he

/-- The children traversal succeeds whenever every child key resolves to a
non-empty group and the recursive call succeeds under the unprinted-key-count
fuel bound (the bound is antitone in the printed set, which only grows). -/
theorem ppdChildren_isSome (g : ResolvedDependencies)
    (f : FoundDependency → Nat → Finset DependencyChild →
      Option (Finset DependencyChild × List PrintLine)) (n : Nat)
    (hsucc : ∀ d i ap, depInGraph g d →
      (graphKeys g \ ap).card + 1 ≤ n → (f d i ap).isSome = true) :
    ∀ (cs : List DependencyChild) (indent : Nat)
      (st : Finset DependencyChild × List PrintLine),
      (∀ c ∈ cs, hasNonemptyGroup g c = true) →
      (graphKeys g \ st.1).card + 1 ≤ n →
      (ppdChildren g f cs indent st).isSome = true := by
  intro cs
  induction cs with
  | nil => intro indent st _ _; rw [ppdChildren]; rfl
  | cons c rest ih =>
    intro indent st hcs hb
    have hne := hcs c (List.mem_cons_self _ _)
    rw [hasNonemptyGroup] at hne
    cases hl : lookupGroup g c with
    | none => rw [hl] at hne; exact absurd hne (by simp)
    | some grp =>
      cases grp with
      | nil => rw [hl] at hne; exact absurd hne (by simp)
      | cons d tl =>
        have hd : depInGraph g d := lookup_head_inGraph g c d tl hl
        have hfs := hsucc d (indent + 2) st.1 hd hb
        rw [ppdChildren, hl]
        show (match f d (indent + 2) st.1 with
          | some (p', lines) => ppdChildren g f rest indent (st.1 ∪ p', st.2 ++ lines)
          | none => none).isSome = true
        cases hf' : f d (indent + 2) st.1 with
        | none => rw [hf'] at hfs; exact absurd hfs (by simp)
        | some r =>
          obtain ⟨p', lines⟩ := r
          show (ppdChildren g f rest indent (st.1 ∪ p', st.2 ++ lines)).isSome = true
          apply ih
          · exact fun c' hc' => hcs c' (List.mem_cons_of_mem _ hc')
          · show (graphKeys g \ (st.1 ∪ p')).card + 1 ≤ n
            have hsub : graphKeys g \ (st.1 ∪ p') ⊆ graphKeys g \ st.1 := by
              intro x hx
              rw [Finset.mem_sdiff] at hx ⊢
              exact ⟨hx.1, fun hc => hx.2 (Finset.mem_union_left _ hc)⟩
            have := Finset.card_le_card hsub
            omega

/-- `pretty_print_dependency` succeeds on any graph record when the fuel
exceeds the number of unprinted keys: each recursion level either hits the
cycle guard or marks a fresh key as printed. -/
theorem pretty_print_dependency_isSome (g : ResolvedDependencies)
    (hwf : GraphWF g) :
    ∀ (fuel : Nat) (dep : FoundDependency) (indent : Nat)
      (ap : Finset DependencyChild),
      depInGraph g dep → (graphKeys g \ ap).card + 1 ≤ fuel →
      (pretty_print_dependency g fuel dep indent ap).isSome = true := by
  intro fuel
  induction fuel with
  | zero => intro dep indent ap _ hb; omega
  | succ fuel' ih =>
    intro dep indent ap hin hb
    rw [pretty_print_dependency]
    by_cases hk : keyOf dep ∈ ap
    · rw [if_pos hk]; rfl
    · rw [if_neg hk]
      cases hc : dep.children with
      | none => rfl
      | some cs =>
        apply ppdChildren_isSome g _ fuel'
          (fun d i ap' hd hb' => ih d i ap' hd hb')
        · obtain ⟨e, he, hdep⟩ := hin
          intro c hcmem
          apply hwf.2 e he dep hdep c
          rw [hc]
          exact hcmem
        · show (graphKeys g \ insert (keyOf dep) ap).card + 1 ≤ fuel'
          have hkK : keyOf dep ∈ graphKeys g :=
            keyOf_mem_graphKeys g dep hwf.1 hin
          have := sdiff_insert_card (graphKeys g) ap (keyOf dep) hkK hk
          omega

/-- The loop over direct dependencies succeeds whenever each direct record is
in the graph and the fuel exceeds the key count (each walk starts from the
empty printed set, so the bound is the same for every walk). -/
theorem printDirects_isSome (g : ResolvedDependencies) (hwf : GraphWF g)
    (fuel : Nat) :
    ∀ (ds : List FoundDependency) (st : Finset DependencyChild × List PrintLine),
      (∀ d ∈ ds, depInGraph g d) →
      (graphKeys g).card + 1 ≤ fuel →
      (printDirects g fuel ds st).isSome = true := by
  intro ds
  induction ds with
  | nil => intro st _ _; rw [printDirects]; rfl
  | cons d rest ih =>
    intro st hds hb
    have hs := pretty_print_dependency_isSome g hwf fuel d 0 ∅
      (hds d (List.mem_cons_self _ _))
      (by rw [Finset.sdiff_empty]; exact hb)
    rw [printDirects]
    cases hp : pretty_print_dependency g fuel d 0 ∅ with
    | none => rw [hp] at hs; exact absurd hs (by simp)
    | some r =>
      obtain ⟨p', lines⟩ := r
      show (printDirects g fuel rest (st.1 ∪ p', st.2 ++ lines)).isSome = true
      exact ih _ (fun x hx => hds x (List.mem_cons_of_mem _ hx)) hb

/-- `pretty_print` terminates successfully on any well-formed graph once the
fuel exceeds the graph's key count. -/
theorem pretty_print_isSome_of (g : ResolvedDependencies) (hwf : GraphWF g)
    (fuel : Nat) (hfuel : (graphKeys g).card + 1 ≤ fuel) :
    (g.pretty_print fuel).isSome = true := by
  rw [ResolvedDependencies.pretty_print]
  have hds : ∀ d ∈ g.iter_found_dependencies.filter
      (fun dep => decide (dep.transitivity = .direct)), depInGraph g d := by
    intro d hd
    have hd' := (List.mem_filter.mp hd).1
    rw [ResolvedDependencies.iter_found_dependencies, List.mem_flatten] at hd'
    obtain ⟨l, hl, hdl⟩ := hd'
    rw [List.mem_map] at hl
    obtain ⟨e, he, rfl⟩ := hl
    exact ⟨e, he, hdl⟩
  have h := printDirects_isSome g hwf fuel
    (g.iter_found_dependencies.filter (fun dep => decide (dep.transitivity = .direct)))
    (∅, [PrintLine.headerDirect]) hds hfuel
  cases hp : printDirects g fuel
      (g.iter_found_dependencies.filter (fun dep => decide (dep.transitivity = .direct)))
      (∅, [PrintLine.headerDirect]) with
  | none => rw [hp] at h; exact absurd h (by simp)
  | some r =>
    obtain ⟨printed, lines⟩ := r
    rfl

/-- C8: for every dependency graph — including graphs whose child
back-references form a cycle such as A@1 → B@1 → A@1 — the depth-first
`pretty_print` traversal terminates (succeeds with fuel bounded by the number
of keys, i.e. the recursion never needs more nesting than there are keys),
and a `(package, version)` key already visited in the current traversal is
never re-expanded: the call returns immediately with the "previously shown"
marker and an unchanged printed set, so each key's children are expanded at
most once. -/
theorem pretty_print_cycle_safe (g : ResolvedDependencies) (fuel : Nat)
    (hwf : GraphWF g) (hfuel : (graphKeys g).card + 1 ≤ fuel) :
    (g.pretty_print fuel).isSome = true
      ∧ ∀ (dep : FoundDependency) (indent n : Nat)
          (printed : Finset DependencyChild),
          keyOf dep ∈ printed →
          pretty_print_dependency g (n + 1) dep indent printed
            = some (printed, [.depLine dep.package dep.version indent,
                .alreadyPrintedLine (indent + 1)]) := by
  refine ⟨pretty_print_isSome_of g hwf fuel hfuel, ?_⟩
  intro dep indent n printed hk
  rw [pretty_print_dependency, if_pos hk]

/-- The record `A@1`, whose only child is `B@1`. -/
def depA : FoundDependency :=
  ⟨"A", "1", .direct, none, some [⟨"B", "1"⟩]⟩

/-- The record `B@1`, whose only child is `A@1` (closing the cycle). -/
def depB : FoundDependency :=
  ⟨"B", "1", .transitive, none, some [⟨"A", "1"⟩]⟩

/-- The cyclic dependency graph `A@1 → B@1 → A@1` of the spec's cycle-safety
property. -/
def cycleGraph : ResolvedDependencies :=
  ResolvedDependencies.from_found_dependencies [depA, depB]

/-- Witness for C8: the cyclic graph `A@1 → B@1 → A@1` prints successfully
with fuel 3 (two keys plus one), and the concrete output shows the cycle
guard marking `A@1` as previously shown. -/
theorem pretty_print_cycle_safe_witness :
    (cycleGraph.pretty_print 3).isSome = true :=
  (pretty_print_cycle_safe cycleGraph 3 (by decide) (by decide)).1

/-- The name of `dir / n` is `n`. -/
theorem pathName_pathChild (d : FPath) (n : String) :
    pathName (pathChild d n) = n := by
  rw [pathName, pathChild, List.getLastD_eq_getLast?, List.getLast?_concat]
  rfl

/-- Any non-root path is its parent extended by its name. -/
theorem pathChild_parent_name_self (l : FPath) (h : l ≠ []) :
    pathChild (pathParent l) (pathName l) = l := by
  cases l with
  | nil => exact absurd rfl h
  | cons x xs =>
    have hne : (x :: xs : FPath) ≠ [] := by simp
    have hlast : pathName (x :: xs) = (x :: xs).getLast hne := by
      rw [pathName, List.getLastD_eq_getLast?, List.getLast?_eq_getLast _ hne]
      rfl
    rw [pathChild, pathParent, hlast, List.dropLast_append_getLast hne]

/-- `dir / n` determines `dir`. -/
theorem pathChild_right_inj {d₁ d₂ : FPath} {n : String}
    (h : pathChild d₁ n = pathChild d₂ n) : d₁ = d₂ := by
  have := congrArg List.dropLast h
  simpa [pathChild, List.dropLast_concat] using this

/-- Well-formedness of one matcher, as `find_subprojects` relies on it: on any
candidate set of non-root paths, the consumed files come from the candidates,
every produced subproject is built only from consumed files, and no file
backs two different subprojects produced in the same run. -/
def MatcherWF (M : SubprojectMatcher) : Prop :=
  ∀ files : List FPath, (∀ p ∈ files, p ≠ []) →
    ((∀ p ∈ (M.make_subprojects files).2, p ∈ files)
      ∧ (∀ sp ∈ (M.make_subprojects files).1,
          ∀ p ∈ sourceFiles sp.dependency_source, p ∈ (M.make_subprojects files).2)
      ∧ (∀ sp₁ ∈ (M.make_subprojects files).1, ∀ sp₂ ∈ (M.make_subprojects files).1,
          ∀ p, p ∈ sourceFiles sp₁.dependency_source →
            p ∈ sourceFiles sp₂.dependency_source → sp₁ = sp₂))

/-- Computation rule for the exact matcher's manifest lookup. -/
theorem exact_l2m_eq (ln : String) (mn : Option String) (lk : LockfileKind)
    (mk : ManifestKind) (l : FPath) (files : List FPath) :
    (exactLockfileManifestMatcherCls ln mn lk mk).lockfile_to_manifest l files
      = match mn with
        | some n =>
          if pathChild (pathParent l) n ∈ files then
            some (pathChild (pathParent l) n)
          else none
        | none => none := rfl

/-- Computation rule for the exact matcher's lockfile recognizer. -/
theorem exact_is_lockfile_eq (ln : String) (mn : Option String)
    (lk : LockfileKind) (mk : ManifestKind) (p : FPath) :
    (exactLockfileManifestMatcherCls ln mn lk mk).is_lockfile_match p
      = (pathName p == ln) := rfl

/-- An exact pair-matcher's manifest lookup only returns candidates of the
shape `lockfile.parent / manifest_name`. -/
theorem exact_l2m_some (ln : String) (mn : Option String) (lk : LockfileKind)
    (mk : ManifestKind) (l mp : FPath) (files : List FPath)
    (h : (exactLockfileManifestMatcherCls ln mn lk mk).lockfile_to_manifest l files
      = some mp) :
    ∃ n, mn = some n ∧ mp = pathChild (pathParent l) n ∧ mp ∈ files := by
  rw [exact_l2m_eq] at h
  cases mn with
  | none => exact Option.noConfusion h
  | some n =>
    replace h : (if pathChild (pathParent l) n ∈ files then
        some (pathChild (pathParent l) n) else none) = some mp := h
    by_cases hmem : pathChild (pathParent l) n ∈ files
    · rw [if_pos hmem, Option.some_inj] at h
      exact ⟨n, rfl, h.symm, h ▸ hmem⟩
    · rw [if_neg hmem] at h
      exact Option.noConfusion h

/-- The exact pair-matcher is well-formed: consumed files come from the
candidates, subprojects are built only from consumed files, and no file backs
two different subprojects. -/
theorem exactLockfileManifestMatcher_wf (ln : String) (mn : Option String)
    (lk : LockfileKind) (mk : ManifestKind) :
    MatcherWF (exactLockfileManifestMatcher ln mn lk mk) := by
  intro files hne
  set M := exactLockfileManifestMatcherCls ln mn lk mk with hM
  have hout1 : ((exactLockfileManifestMatcher ln mn lk mk).make_subprojects files).1
      = (files.filter M.is_lockfile_match).map (mkLockfileSubproject M files) := rfl
  have hout2 : ((exactLockfileManifestMatcher ln mn lk mk).make_subprojects files).2
      = (files.filter M.is_lockfile_match).filterMap
          (fun l => M.lockfile_to_manifest l files)
        ++ files.filter M.is_lockfile_match := rfl
  have hlf : ∀ l ∈ files.filter M.is_lockfile_match, l ∈ files ∧ pathName l = ln := by
    intro l hl
    have hm := List.mem_filter.mp hl
    refine ⟨hm.1, ?_⟩
    have h2 := hm.2
    rw [hM, exact_is_lockfile_eq] at h2
    exact eq_of_beq h2
  have hsrc : ∀ l ∈ files.filter M.is_lockfile_match,
      ∀ p ∈ sourceFiles (mkLockfileSubproject M files l).dependency_source,
        p = l ∨ M.lockfile_to_manifest l files = some p := by
    intro l hl p hp
    rw [mkLockfileSubproject] at hp
    cases hm : M.lockfile_to_manifest l files with
    | none =>
      rw [hm] at hp
      simp only [sourceFiles, List.mem_singleton] at hp
      exact Or.inl hp
    | some mp =>
      rw [hm] at hp
      simp only [sourceFiles, List.mem_cons, List.mem_singleton,
        List.not_mem_nil, or_false] at hp
      rcases hp with hp | hp
      · exact Or.inl hp
      · rw [hp]
        exact Or.inr rfl
  refine ⟨?_, ?_, ?_⟩
  · intro p hp
    rw [hout2, List.mem_append] at hp
    rcases hp with hp | hp
    · rw [List.mem_filterMap] at hp
      obtain ⟨l, hl, hm⟩ := hp
      rw [hM] at hm
      obtain ⟨n, _, _, hpf⟩ := exact_l2m_some ln mn lk mk l p files hm
      exact hpf
    · exact (List.mem_filter.mp hp).1
  · intro sp hsp p hp
    rw [hout1, List.mem_map] at hsp
    obtain ⟨l, hl, rfl⟩ := hsp
    rw [hout2, List.mem_append]
    rcases hsrc l hl p hp with rfl | hm
    · right; exact hl
    · left
      rw [List.mem_filterMap]
      exact ⟨l, hl, hm⟩
  · intro sp₁ hsp₁ sp₂ hsp₂ p hp₁ hp₂
    rw [hout1, List.mem_map] at hsp₁ hsp₂
    obtain ⟨l₁, hl₁, rfl⟩ := hsp₁
    obtain ⟨l₂, hl₂, rfl⟩ := hsp₂
    suffices h : l₁ = l₂ by rw [h]
    have hf₁ := hlf l₁ hl₁
    have hf₂ := hlf l₂ hl₂
    have hne₁ : l₁ ≠ [] := hne l₁ hf₁.1
    have hne₂ : l₂ ≠ [] := hne l₂ hf₂.1
    have hself₁ : pathChild (pathParent l₁) ln = l₁ := by
      rw [← hf₁.2]
      exact pathChild_parent_name_self l₁ hne₁
    have hself₂ : pathChild (pathParent l₂) ln = l₂ := by
      rw [← hf₂.2]
      exact pathChild_parent_name_self l₂ hne₂
    rcases hsrc l₁ hl₁ p hp₁ with rfl | hm₁
    · rcases hsrc l₂ hl₂ p hp₂ with h2 | hm₂
      · exact h2
      · rw [hM] at hm₂
        obtain ⟨n, _, heq, _⟩ := exact_l2m_some ln mn lk mk l₂ _ files hm₂
        have hnn : n = ln := by
          rw [← pathName_pathChild (pathParent l₂) n, ← heq, hf₁.2]
        rw [heq, hnn, hself₂]
    · rw [hM] at hm₁
      obtain ⟨n₁, hn₁, heq₁, _⟩ := exact_l2m_some ln mn lk mk l₁ p files hm₁
      rcases hsrc l₂ hl₂ p hp₂ with h2 | hm₂
      · have hnn : n₁ = ln := by
          rw [← pathName_pathChild (pathParent l₁) n₁, ← heq₁, h2, hf₂.2]
        rw [← h2, heq₁, hnn, hself₁]
      · rw [hM] at hm₂
        obtain ⟨n₂, hn₂, heq₂, _⟩ := exact_l2m_some ln mn lk mk l₂ p files hm₂
        have hnn : n₁ = n₂ := by
          have := hn₁.symm.trans hn₂
          exact Option.some_inj.mp this
        have hpar : pathParent l₁ = pathParent l₂ := by
          apply pathChild_right_inj (n := n₁)
          rw [← heq₁, heq₂, hnn]
        rw [← hself₁, ← hself₂, hpar]

/-- The exact manifest-only matcher is well-formed. -/
theorem exactManifestOnlyMatcher_wf (manifest_name : String)
    (mk : ManifestKind) : MatcherWF (exactManifestOnlyMatcher manifest_name mk) := by
  intro files hne
  have hout1 : ((exactManifestOnlyMatcher manifest_name mk).make_subprojects files).1
      = (files.filter (fun p => pathName p == manifest_name)).map
          (fun manifest_path =>
            ({ root_dir := pathParent manifest_path
               dependency_source := .manifestOnly ⟨mk, manifest_path⟩ } : Subproject)) := rfl
  have hout2 : ((exactManifestOnlyMatcher manifest_name mk).make_subprojects files).2
      = files.filter (fun p => pathName p == manifest_name) := rfl
  refine ⟨?_, ?_, ?_⟩
  · intro p hp
    rw [hout2] at hp
    exact (List.mem_filter.mp hp).1
  · intro sp hsp p hp
    rw [hout1, List.mem_map] at hsp
    obtain ⟨m, hm, rfl⟩ := hsp
    have hpm : p = m := by simpa [sourceFiles] using hp
    rw [hout2, hpm]
    exact hm
  · intro sp₁ hsp₁ sp₂ hsp₂ p hp₁ hp₂
    rw [hout1, List.mem_map] at hsp₁ hsp₂
    obtain ⟨m₁, hm₁, rfl⟩ := hsp₁
    obtain ⟨m₂, hm₂, rfl⟩ := hsp₂
    have e₁ : p = m₁ := by simpa [sourceFiles] using hp₁
    have e₂ : p = m₂ := by simpa [sourceFiles] using hp₂
    rw [← e₁.symm.trans e₂]

/-- Files consumed by a `find_subprojects` run come only from the prior used
set or the candidate files. -/
theorem find_subprojects_go_used_subset (files : List FPath) :
    ∀ (matchers : List SubprojectMatcher) (used : List FPath)
      (acc : List Subproject),
      (∀ m ∈ matchers, MatcherWF m) → (∀ p ∈ files, p ≠ []) →
      ∀ p ∈ (find_subprojects_go files matchers used acc).2,
        p ∈ used ∨ p ∈ files := by
  intro matchers
  induction matchers with
  | nil =>
    intro used acc _ _ p hp
    rw [find_subprojects_go] at hp
    exact Or.inl hp
  | cons m rest ih =>
    intro used acc hwf hne p hp
    rw [find_subprojects_go] at hp
    set offered := files.filter (fun q => decide (q ∉ used)) with hoff
    have hoffne : ∀ q ∈ offered, q ≠ [] := by
      intro q hq
      exact hne q (List.mem_filter.mp hq).1
    have hwfm := hwf m (List.mem_cons_self _ _) offered hoffne
    rcases ih (used ++ (m.make_subprojects offered).2) (acc ++ (m.make_subprojects offered).1)
        (fun m' hm' => hwf m' (List.mem_cons_of_mem _ hm')) hne p hp with hu | hf
    · rw [List.mem_append] at hu
      rcases hu with hu | hu
      · exact Or.inl hu
      · exact Or.inr (List.mem_filter.mp (hwfm.1 p hu)).1
    · exact Or.inr hf

/-- Every offered set in a matcher trace excludes the incoming used set. -/
theorem matcherTrace_offered_excludes_used (files : List FPath) :
    ∀ (matchers : List SubprojectMatcher) (used : List FPath),
      ∀ e ∈ matcherTrace files matchers used, ∀ p ∈ e.1, p ∉ used := by
  intro matchers
  induction matchers with
  | nil => intro used e he; rw [matcherTrace] at he; exact absurd he (List.not_mem_nil e)
  | cons m rest ih =>
    intro used e he p hp
    rw [matcherTrace, List.mem_cons] at he
    rcases he with rfl | he
    · have := List.mem_filter.mp hp
      simpa using this.2
    · have hnotin := ih _ e he p hp
      intro hc
      exact hnotin (List.mem_append_left _ hc)

/-- Unfolding of `matcherTrace` on a cons of matchers. -/
theorem matcherTrace_cons (files : List FPath) (m : SubprojectMatcher)
    (rest : List SubprojectMatcher) (used : List FPath) :
    matcherTrace files (m :: rest) used
      = (files.filter (fun q => decide (q ∉ used)),
         (m.make_subprojects (files.filter (fun q => decide (q ∉ used)))).2)
        :: matcherTrace files rest
          (used ++ (m.make_subprojects
            (files.filter (fun q => decide (q ∉ used)))).2) := rfl

/-- A file offered to a later matcher was not consumed by any earlier
matcher: whenever the trace splits as `pre ++ e₁ :: post`, the offered set of
any entry of `post` (a strictly later matcher) is disjoint from the files
consumed at `e₁`. -/
theorem matcherTrace_disjoint (files : List FPath) :
    ∀ (matchers : List SubprojectMatcher) (used : List FPath)
      (pre : List (List FPath × List FPath)) (e₁ : List FPath × List FPath)
      (post : List (List FPath × List FPath)),
      matcherTrace files matchers used = pre ++ e₁ :: post →
      ∀ e₂ ∈ post, ∀ p ∈ e₂.1, p ∉ e₁.2 := by
  intro matchers
  induction matchers with
  | nil =>
    intro used pre e₁ post h
    rw [matcherTrace] at h
    exact absurd h.symm (List.append_ne_nil_of_right_ne_nil pre (by simp))
  | cons m rest ih =>
    intro used pre e₁ post h e₂ he₂ p hp
    rw [matcherTrace_cons] at h
    cases pre with
    | nil =>
      rw [List.nil_append] at h
      injection h with h1 h2
      have hexc := matcherTrace_offered_excludes_used files rest _ e₂
        (h2 ▸ he₂) p hp
      intro hc
      apply hexc
      apply List.mem_append_right
      rw [← h1] at hc
      exact hc
    | cons q pre' =>
      rw [List.cons_append] at h
      injection h with h1 h2
      exact ih _ pre' e₁ post h2 e₂ he₂ p hp

/-- The used set of a `find_subprojects` run is exactly the concatenation of
the per-matcher consumed sets of its trace. -/
theorem find_subprojects_go_used_eq_trace (files : List FPath) :
    ∀ (matchers : List SubprojectMatcher) (used : List FPath)
      (acc : List Subproject),
      (find_subprojects_go files matchers used acc).2
        = used ++ ((matcherTrace files matchers used).map (fun e => e.2)).flatten := by
  intro matchers
  induction matchers with
  | nil => intro used acc; rw [find_subprojects_go, matcherTrace]; simp
  | cons m rest ih =>
    intro used acc
    rw [find_subprojects_go, matcherTrace_cons, ih]
    simp [List.append_assoc]

/-- Exclusivity propagates through the matcher fold: if the accumulated
subprojects use only already-used files and are pairwise file-disjoint, the
final subproject list is pairwise file-disjoint too. -/
theorem find_subprojects_go_exclusive (files : List FPath) :
    ∀ (matchers : List SubprojectMatcher) (used : List FPath)
      (acc : List Subproject),
      (∀ m ∈ matchers, MatcherWF m) → (∀ p ∈ files, p ≠ []) →
      (∀ sp ∈ acc, ∀ p ∈ sourceFiles sp.dependency_source, p ∈ used) →
      (∀ sp₁ ∈ acc, ∀ sp₂ ∈ acc, ∀ p,
        p ∈ sourceFiles sp₁.dependency_source →
        p ∈ sourceFiles sp₂.dependency_source → sp₁ = sp₂) →
      ∀ sp₁ ∈ (find_subprojects_go files matchers used acc).1,
        ∀ sp₂ ∈ (find_subprojects_go files matchers used acc).1, ∀ p,
        p ∈ sourceFiles sp₁.dependency_source →
        p ∈ sourceFiles sp₂.dependency_source → sp₁ = sp₂ := by
  intro matchers
  induction matchers with
  | nil =>
    intro used acc _ _ _ hexc
    rw [find_subprojects_go]
    exact hexc
  | cons m rest ih =>
    intro used acc hwf hne hsrcused hexc
    rw [find_subprojects_go]
    set offered := files.filter (fun q => decide (q ∉ used)) with hoff
    have hoffne : ∀ q ∈ offered, q ≠ [] := fun q hq =>
      hne q (List.mem_filter.mp hq).1
    have hwfm := hwf m (List.mem_cons_self _ _) offered hoffne
    have hoffused : ∀ q ∈ offered, q ∉ used := by
      intro q hq
      have := (List.mem_filter.mp hq).2
      simpa using this
    apply ih (used ++ (m.make_subprojects offered).2)
      (acc ++ (m.make_subprojects offered).1)
      (fun m' hm' => hwf m' (List.mem_cons_of_mem _ hm')) hne
    · intro sp hsp p hp
      rw [List.mem_append] at hsp
      rcases hsp with hsp | hsp
      · exact List.mem_append_left _ (hsrcused sp hsp p hp)
      · exact List.mem_append_right _ (hwfm.2.1 sp hsp p hp)
    · intro sp₁ h₁ sp₂ h₂ p hp₁ hp₂
      rw [List.mem_append] at h₁ h₂
      rcases h₁ with h₁ | h₁ <;> rcases h₂ with h₂ | h₂
      · exact hexc sp₁ h₁ sp₂ h₂ p hp₁ hp₂
      · exfalso
        exact hoffused p (hwfm.1 p (hwfm.2.1 sp₂ h₂ p hp₂)) (hsrcused sp₁ h₁ p hp₁)
      · exfalso
        exact hoffused p (hwfm.1 p (hwfm.2.1 sp₁ h₁ p hp₁)) (hsrcused sp₂ h₂ p hp₂)
      · exact hwfm.2.2 sp₁ h₁ sp₂ h₂ p hp₁ hp₂

/-- The framework invariants, for any priority-ordered list of well-formed
matchers over a candidate set of non-root paths: (1) the union of files
consumed across all matchers is a subset of the input set, (2) each matcher
is only offered files not consumed by an earlier matcher (any later trace
entry's offered set is disjoint from any earlier entry's consumed set), and
(3) no single file is attributed to two different subprojects. -/
theorem find_subprojects_wf_invariants (files : List FPath)
    (matchers : List SubprojectMatcher)
    (hwf : ∀ m ∈ matchers, MatcherWF m) (hne : ∀ p ∈ files, p ≠ []) :
    (∀ p ∈ find_subprojects_used files matchers, p ∈ files)
    ∧ (∀ (pre : List (List FPath × List FPath)) (e₁ : List FPath × List FPath)
        (post : List (List FPath × List FPath)),
        matcherTrace files matchers [] = pre ++ e₁ :: post →
        ∀ e₂ ∈ post, ∀ p ∈ e₂.1, p ∉ e₁.2)
    ∧ (∀ sp₁ ∈ find_subprojects files matchers,
        ∀ sp₂ ∈ find_subprojects files matchers, ∀ p,
        p ∈ sourceFiles sp₁.dependency_source →
        p ∈ sourceFiles sp₂.dependency_source → sp₁ = sp₂) := by
  refine ⟨?_, ?_, ?_⟩
  · intro p hp
    rcases find_subprojects_go_used_subset files matchers [] [] hwf hne p hp with h | h
    · exact absurd h (List.not_mem_nil p)
    · exact h
  · exact matcherTrace_disjoint files matchers []
  · exact find_subprojects_go_exclusive files matchers [] [] hwf hne
      (fun sp hsp => absurd hsp (List.not_mem_nil sp))
      (fun sp₁ h₁ => absurd h₁ (List.not_mem_nil sp₁))

/-- `sourceFiles` of a lifted lockfile-backed source. -/
theorem sourceFiles_toDependencySource (s : LockfileDepSource) :
    sourceFiles s.toDependencySource = lockfileSourceFiles s := by
  cases s <;> rfl

/-- The files backing one nested pip source: the lockfile itself, plus the
manifest when one was paired. -/
theorem pipLockfileSource_files (hasManifest : Bool) (mp l p : FPath)
    (hp : p ∈ lockfileSourceFiles (pipLockfileSource hasManifest mp l)) :
    p = l ∨ (hasManifest = true ∧ p = mp) := by
  revert hp
  cases hasManifest with
  | false =>
    intro hp
    have hp' : p ∈ lockfileSourceFiles
        (LockfileDepSource.lockfileOnly ⟨.pipRequirementsTxt, l⟩) := hp
    simp only [lockfileSourceFiles, List.mem_singleton] at hp'
    exact Or.inl hp'
  | true =>
    intro hp
    have hp' : p ∈ lockfileSourceFiles
        (LockfileDepSource.manifestLockfile ⟨.requirementsIn, mp⟩
          ⟨.pipRequirementsTxt, l⟩) := hp
    simp only [lockfileSourceFiles, List.mem_cons, List.mem_singleton,
      List.not_mem_nil, or_false] at hp'
    rcases hp' with h | h
    · exact Or.inl h
    · exact Or.inr ⟨rfl, h⟩

/-- The files backing a pip subproject source: its grouped lockfiles, plus
the shared manifest when one was paired. -/
theorem pipSourceFor_files (hasManifest : Bool) (mp : FPath)
    (ls : List FPath) (p : FPath)
    (hp : p ∈ sourceFiles (pipSourceFor hasManifest mp ls)) :
    p ∈ ls ∨ (hasManifest = true ∧ p = mp) := by
  revert hp
  cases ls with
  | nil =>
    intro hp
    have hp' : p ∈ sourceFiles (DependencySource.multiLockfile []) := hp
    simp [sourceFiles] at hp'
  | cons l tl =>
    cases tl with
    | nil =>
      intro hp
      have hp' : p ∈ sourceFiles
          (pipLockfileSource hasManifest mp l).toDependencySource := hp
      rw [sourceFiles_toDependencySource] at hp'
      rcases pipLockfileSource_files hasManifest mp l p hp' with h | h
      · rw [h]
        exact Or.inl (List.mem_singleton_self l)
      · exact Or.inr h
    | cons x xs =>
      intro hp
      have hp' : p ∈ sourceFiles (DependencySource.multiLockfile
          ((l :: x :: xs).map (pipLockfileSource hasManifest mp))) := hp
      simp only [sourceFiles, List.mem_flatten] at hp'
      obtain ⟨q, hq, hpq⟩ := hp'
      rw [List.mem_map] at hq
      obtain ⟨s', hs', rfl⟩ := hq
      rw [List.mem_map] at hs'
      obtain ⟨l', hl', rfl⟩ := hs'
      rcases pipLockfileSource_files hasManifest mp l' p hpq with h | h
      · exact Or.inl (h ▸ hl')
      · exact Or.inr h

/-- The spec-modelled pip requirements matcher is well-formed. -/
theorem pipRequirementsMatcher_wf : MatcherWF pipRequirementsMatcher := by
  intro files hne
  have hout1 : (pipRequirementsMatcher.make_subprojects files).1
      = ((files.filter pipIsLockfileMatch).map pathParent).dedup.map
          (pipSubprojectFor files (files.filter pipIsLockfileMatch)) := rfl
  have hout2 : (pipRequirementsMatcher.make_subprojects files).2
      = ((files.filter pipIsLockfileMatch).map pathParent).dedup.filterMap
          (fun d =>
            if pathChild d "requirements.in" ∈ files then
              some (pathChild d "requirements.in")
            else none)
        ++ files.filter pipIsLockfileMatch := rfl
  have hchar : ∀ d, ∀ p ∈ sourceFiles
      (pipSubprojectFor files (files.filter pipIsLockfileMatch) d).dependency_source,
      (p ∈ files.filter pipIsLockfileMatch ∧ pathParent p = d)
        ∨ (p = pathChild d "requirements.in" ∧ p ∈ files) := by
    intro d p hp
    have hp' : p ∈ sourceFiles (pipSourceFor
        (decide (pathChild d "requirements.in" ∈ files))
        (pathChild d "requirements.in")
        ((files.filter pipIsLockfileMatch).filter
          (fun l => pathParent l == d))) := hp
    rcases pipSourceFor_files _ _ _ p hp' with h | ⟨hm, heq⟩
    · have h2 := List.mem_filter.mp h
      exact Or.inl ⟨h2.1, eq_of_beq h2.2⟩
    · refine Or.inr ⟨heq, ?_⟩
      rw [heq]
      exact of_decide_eq_true hm
  refine ⟨?_, ?_, ?_⟩
  · intro p hp
    rw [hout2, List.mem_append] at hp
    rcases hp with hp | hp
    · rw [List.mem_filterMap] at hp
      obtain ⟨d, hd, hif⟩ := hp
      by_cases hm : pathChild d "requirements.in" ∈ files
      · rw [if_pos hm, Option.some_inj] at hif
        rw [← hif]
        exact hm
      · rw [if_neg hm] at hif
        exact Option.noConfusion hif
    · exact (List.mem_filter.mp hp).1
  · intro sp hsp p hp
    rw [hout1, List.mem_map] at hsp
    obtain ⟨d, hd, rfl⟩ := hsp
    rw [hout2, List.mem_append]
    rcases hchar d p hp with ⟨hl, _⟩ | ⟨heq, hmem⟩
    · right
      exact hl
    · left
      rw [List.mem_filterMap]
      refine ⟨d, hd, ?_⟩
      rw [heq] at hmem
      rw [if_pos hmem, heq]
  · intro sp₁ h₁ sp₂ h₂ p hp₁ hp₂
    rw [hout1, List.mem_map] at h₁ h₂
    obtain ⟨d₁, hd₁, rfl⟩ := h₁
    obtain ⟨d₂, hd₂, rfl⟩ := h₂
    suffices h : d₁ = d₂ by rw [h]
    rcases hchar d₁ p hp₁ with ⟨_, he₁⟩ | ⟨he₁, _⟩ <;>
      rcases hchar d₂ p hp₂ with ⟨_, he₂⟩ | ⟨he₂, _⟩
    · rw [← he₁, ← he₂]
    · rw [he₂, pathChild, pathParent, List.dropLast_concat] at he₁
      exact he₁.symm
    · rw [he₁, pathChild, pathParent, List.dropLast_concat] at he₂
      exact he₂
    · rw [he₁] at he₂
      exact pathChild_right_inj he₂

/-- Every matcher of the fixed registry is well-formed. -/
theorem MATCHERS_wf : ∀ m ∈ MATCHERS, MatcherWF m := by
  intro m hm
  rw [MATCHERS] at hm
  simp only [List.mem_cons, List.not_mem_nil, or_false] at hm
  rcases hm with rfl | rfl | rfl | rfl | rfl | rfl | rfl | rfl | rfl | rfl
    | rfl | rfl | rfl | rfl | rfl | rfl | rfl | rfl
  · exact pipRequirementsMatcher_wf
  · exact exactLockfileManifestMatcher_wf "package-lock.json"
      (some "package.json") .npmPackageLockJson .packageJson
  · exact exactLockfileManifestMatcher_wf "yarn.lock" (some "package.json")
      .yarnLock .packageJson
  · exact exactLockfileManifestMatcher_wf "pnpm-lock.yaml" (some "package.json")
      .pnpmLock .packageJson
  · exact exactLockfileManifestMatcher_wf "Gemfile.lock" (some "Gemfile")
      .gemfileLock .gemfileManifest
  · exact exactLockfileManifestMatcher_wf "go.mod" (some "go.mod")
      .goMod .goModManifest
  · exact exactLockfileManifestMatcher_wf "Cargo.lock" (some "Cargo.toml")
      .cargoLock .cargoToml
  · exact exactLockfileManifestMatcher_wf "maven_dep_tree.txt" (some "pom.xml")
      .mavenDepTree .pomXml
  · exact exactManifestOnlyMatcher_wf "pom.xml" .pomXml
  · exact exactLockfileManifestMatcher_wf "gradle.lockfile" (some "build.gradle")
      .gradleLockfile .buildGradle
  · exact exactLockfileManifestMatcher_wf "composer.lock" (some "composer.json")
      .composerLock .composerJson
  · exact exactLockfileManifestMatcher_wf "packages.lock.json"
      (some "nuget.manifest.json") .nugetPackagesLockJson .nugetManifestJson
  · exact exactLockfileManifestMatcher_wf "pubspec.lock" (some "pubspec.yaml")
      .pubspecLock .pubspecYaml
  · exact exactLockfileManifestMatcher_wf "Package.resolved" (some "Package.swift")
      .swiftPackageResolved .packageSwift
  · exact exactLockfileManifestMatcher_wf "mix.lock" (some "mix.exs")
      .mixLock .mixExs
  · exact exactLockfileManifestMatcher_wf "Pipfile.lock" (some "Pipfile")
      .pipfileLock .pipfileManifest
  · exact exactLockfileManifestMatcher_wf "poetry.lock" (some "pyproject.toml")
      .poetryLock .pyprojectToml
  · exact exactLockfileManifestMatcher_wf "uv.lock" (some "pyproject.toml")
      .uvLock .pyprojectToml

/-- C3: for every candidate file set (of non-root paths) and the fixed
priority-ordered matcher registry `MATCHERS`, (1) the union of files consumed
across all matchers is a subset of the input set, (2) each matcher is only
offered files not consumed by an earlier matcher (any later trace entry's
offered set is disjoint from any earlier entry's consumed set), and (3) no
single file is attributed to two different subprojects. -/
theorem find_subprojects_invariants (files : List FPath)
    (hne : ∀ p ∈ files, p ≠ []) :
    (∀ p ∈ find_subprojects_used files MATCHERS, p ∈ files)
    ∧ (∀ (pre : List (List FPath × List FPath)) (e₁ : List FPath × List FPath)
        (post : List (List FPath × List FPath)),
        matcherTrace files MATCHERS [] = pre ++ e₁ :: post →
        ∀ e₂ ∈ post, ∀ p ∈ e₂.1, p ∉ e₁.2)
    ∧ (∀ sp₁ ∈ find_subprojects files MATCHERS,
        ∀ sp₂ ∈ find_subprojects files MATCHERS, ∀ p,
        p ∈ sourceFiles sp₁.dependency_source →
        p ∈ sourceFiles sp₂.dependency_source → sp₁ = sp₂) :=
  find_subprojects_wf_invariants files MATCHERS MATCHERS_wf hne

/-- An npm pair in `a/`, a Go module in `b/`, and two requirement files with
their shared manifest in `c/`, for exercising the full registry. -/
def demoRegistryFiles : List FPath :=
  [["a", "package-lock.json"], ["a", "package.json"], ["b", "go.mod"],
   ["c", "requirements.txt"], ["c", "dev-requirements.txt"],
   ["c", "requirements.in"]]

/-- Witness for C3: the registry invariants hold on a concrete run of the
fixed `MATCHERS` registry, including a directory with two requirement files
sharing one manifest. -/
theorem find_subprojects_invariants_witness :
    (∀ p ∈ find_subprojects_used demoRegistryFiles MATCHERS,
      p ∈ demoRegistryFiles)
    ∧ (∀ (pre : List (List FPath × List FPath)) (e₁ : List FPath × List FPath)
        (post : List (List FPath × List FPath)),
        matcherTrace demoRegistryFiles MATCHERS [] = pre ++ e₁ :: post →
        ∀ e₂ ∈ post, ∀ p ∈ e₂.1, p ∉ e₁.2)
    ∧ (∀ sp₁ ∈ find_subprojects demoRegistryFiles MATCHERS,
        ∀ sp₂ ∈ find_subprojects demoRegistryFiles MATCHERS, ∀ p,
        p ∈ sourceFiles sp₁.dependency_source →
        p ∈ sourceFiles sp₂.dependency_source → sp₁ = sp₂) :=
  find_subprojects_invariants demoRegistryFiles (by decide)

/-- One dispatch step either leaves the unresolved list unchanged (resolution
produced a result) or appends the one subproject it failed to resolve,
carrying exactly the resolution's error list. -/
theorem resolveStep_unresolved (env : Env) (a b : Bool) (st : ResolveState)
    (sp : Subproject) :
    (resolveStep env a b st sp).unresolved = st.unresolved
      ∨ ((resolveStep env a b st sp).unresolved
          = st.unresolved ++ [UnresolvedSubproject.from_subproject sp
              (resolve_dependency_source env sp.dependency_source a b).2.1]
        ∧ (resolve_dependency_source env sp.dependency_source a b).1 = none) := by
  rw [resolveStep]
  cases hr : (resolve_dependency_source env sp.dependency_source a b).1 with
  | some v =>
    obtain ⟨eco, m, deps⟩ := v
    left
    rfl
  | none =>
    right
    exact ⟨rfl, rfl⟩

/-- The unresolved-subproject invariant propagates through the dispatch
fold: every unresolved subproject carries exactly the error list its
dependency source resolves to, and its resolution produced no result. -/
theorem resolve_fold_unresolved (env : Env) (a b : Bool) :
    ∀ (sps : List Subproject) (st : ResolveState),
      (∀ u ∈ st.unresolved,
        (resolve_dependency_source env u.dependency_source a b).1 = none
          ∧ u.resolution_errors
              = (resolve_dependency_source env u.dependency_source a b).2.1) →
      ∀ u ∈ (sps.foldl (resolveStep env a b) st).unresolved,
        (resolve_dependency_source env u.dependency_source a b).1 = none
          ∧ u.resolution_errors
              = (resolve_dependency_source env u.dependency_source a b).2.1 := by
  intro sps
  induction sps with
  | nil => intro st hst; simpa using hst
  | cons sp rest ih =>
    intro st hst
    rw [List.foldl_cons]
    apply ih
    intro u hu
    rcases resolveStep_unresolved env a b st sp with heq | ⟨heq, hnone⟩
    · rw [heq] at hu
      exact hst u hu
    · rw [heq, List.mem_append] at hu
      rcases hu with hu | hu
      · exact hst u hu
      · have : u = UnresolvedSubproject.from_subproject sp
            (resolve_dependency_source env sp.dependency_source a b).2.1 := by
          simpa using hu
        rw [this]
        exact ⟨hnone, rfl⟩

/-- C9 (amended): every UnresolvedSubproject produced by a resolution run
carries exactly the accumulated error list returned by resolving its
dependency source (which produced no result); that list can be empty when
the source yields no result without recording an error, such as a lockfile
kind with no registered parser. -/
theorem resolve_subprojects_unresolved_errors (env : Env) (files : List FPath)
    (matchers : List SubprojectMatcher) (a b : Bool) :
    ∀ u ∈ (resolve_subprojects env files matchers a b).1,
      (resolve_dependency_source env u.dependency_source a b).1 = none
        ∧ u.resolution_errors
            = (resolve_dependency_source env u.dependency_source a b).2.1 := by
  intro u hu
  rw [resolve_subprojects] at hu
  exact resolve_fold_unresolved env a b (find_subprojects files matchers)
    ⟨[], [], []⟩ (fun u' hu' => absurd hu' (List.not_mem_nil u')) u hu

/-- Counterexample for C9 as stated: running the full matcher registry over a
single `r/uv.lock` candidate (a recognized lockfile kind with no registered
parser) classifies the subproject as unresolved with an *empty* error list —
not "at least one entry". -/
theorem resolve_subprojects_empty_error_unresolved :
    (resolve_subprojects noRpcEnv [["r", "uv.lock"]] MATCHERS false false).1
      = [{ root_dir := ["r"]
           dependency_source := .lockfileOnly ⟨.uvLock, ["r", "uv.lock"]⟩
           resolution_errors := [] }] := by
  decide

/-- Witness for the amended C9: the unresolved uv.lock subproject of the run
above carries exactly the (empty) error list its source resolves to. -/
theorem resolve_subprojects_unresolved_errors_witness :
    (resolve_dependency_source noRpcEnv
        ({ root_dir := ["r"]
           dependency_source := .lockfileOnly ⟨.uvLock, ["r", "uv.lock"]⟩
           resolution_errors := [] } : UnresolvedSubproject).dependency_source
        false false).1 = none
      ∧ ({ root_dir := ["r"]
           dependency_source := .lockfileOnly ⟨.uvLock, ["r", "uv.lock"]⟩
           resolution_errors := [] } : UnresolvedSubproject).resolution_errors
          = (resolve_dependency_source noRpcEnv
              ({ root_dir := ["r"]
                 dependency_source := .lockfileOnly ⟨.uvLock, ["r", "uv.lock"]⟩
                 resolution_errors := [] } : UnresolvedSubproject).dependency_source
              false false).2.1 :=
  resolve_subprojects_unresolved_errors noRpcEnv [["r", "uv.lock"]] MATCHERS
    false false
    { root_dir := ["r"]
      dependency_source := .lockfileOnly ⟨.uvLock, ["r", "uv.lock"]⟩
      resolution_errors := [] }
    (by decide)
